import Mathlib

set_option maxHeartbeats 1000000

namespace Grep

/-! Shallow embedding of the search engine in src/crates/pi-natives/src/grep.rs.

Rust byte strings are modelled after lossy UTF-8 decoding, so a line is a
Lean string (a list of characters) and its Rust byte length is the sum of
the UTF-8 sizes of its characters.  The u32/u64 counters of the source are
modelled as unbounded Nat: the saturating_add calls in the source differ
from plain addition only at the integer cap, which is not modelled; the
clamp_u32 conversion is kept where the source applies it to values stored
into result records.  The streaming searcher of the grep_searcher crate is
external to the repository: it is modelled as the list of match/context
events it delivers to the Sink, in file order, and the Sink's boolean
answer stops the stream exactly as returning Ok(false) does. -/

/-- Output mode (content or count), from enum OutputMode. -/
inductive OutputMode where
  | Content
  | Count
deriving DecidableEq

/-- clamp_u32: value.min(u32::MAX as u64) as u32. -/
def clampU32 (v : Nat) : Nat := min v 4294967295

/-- A context line (before or after a match), from struct ContextLine. -/
structure ContextLine where
  line_number : Nat
  line : String
deriving DecidableEq

/-- One retained match, from struct CollectedMatch. -/
structure CollectedMatch where
  line_number : Nat
  line : String
  context_before : List ContextLine
  context_after : List ContextLine
  truncated : Bool
deriving DecidableEq

/-- Kind of a context notification, from grep_searcher's SinkContextKind. -/
inductive ContextKind where
  | Before
  | After
  | Other
deriving DecidableEq

/-- An event delivered by the streaming searcher to the Sink: either a
matched line (Sink::matched) or a context line (Sink::context). -/
inductive SinkEvent where
  | matched (line_number : Nat) (bytes : String)
  | context (kind : ContextKind) (line_number : Nat) (bytes : String)
deriving DecidableEq

/-- UTF-8 byte length of a character list; models str::len on the Rust side. -/
def utf8Len (cs : List Char) : Nat := (cs.map Char.utf8Size).sum

/-- Longest prefix of cs whose UTF-8 byte length is at most budget.  This
embeds str::floor_char_boundary followed by slicing up to the boundary:
the boundary byte index named by the source is exactly the byte length of
this prefix, and the slice line[..boundary] is exactly this prefix. -/
def takeToBoundary : List Char → Nat → List Char
  | [], _ => []
  | c :: cs, budget =>
    if c.utf8Size ≤ budget then c :: takeToBoundary cs (budget - c.utf8Size) else []

/-- MatchCollector::truncate_line.  The source compares line.len() (UTF-8
byte length) against the column budget, cuts at the floored character
boundary of max - 3 bytes (saturating), and appends an ellipsis. -/
def truncateLine (max_columns : Option Nat) (line : String) : String × Bool :=
  match max_columns with
  | some mx =>
    if utf8Len line.data > mx then
      let cut := mx - 3
      (String.mk (takeToBoundary line.data cut ++ "...".data), true)
    else (line, false)
  | none => (line, false)

/-- bytes_to_trimmed_string: lossy UTF-8 decoding then trim_end; modelled
as dropping trailing whitespace characters. -/
def bytesToTrimmedString (s : String) : String :=
  String.mk ((s.data.reverse.dropWhile Char.isWhitespace).reverse)

/-- struct MatchCollector: the streaming sink state. -/
structure MatchCollector where
  «matches» : List CollectedMatch
  match_count : Nat
  collected_count : Nat
  max_count : Option Nat
  offset : Nat
  skipped : Nat
  limit_reached : Bool
  context_before : List ContextLine
  max_columns : Option Nat
  collect_matches : Bool
deriving DecidableEq

/-- MatchCollector::new. -/
def MatchCollector.new (max_count : Option Nat) (offset : Nat)
    (max_columns : Option Nat) (collect : Bool) : MatchCollector :=
  ⟨[], 0, 0, max_count, offset, 0, false, [], max_columns, collect⟩

/-- Append a context line to the context_after of the last collected match
(self.«matches».last_mut() in the source); the empty list is left unchanged. -/
def appendAfterToLast (cl : ContextLine) : List CollectedMatch → List CollectedMatch
  | [] => []
  | [m] => [{ m with context_after := m.context_after ++ [cl] }]
  | m :: rest => m :: appendAfterToLast cl rest

/-- Sink::matched for MatchCollector.  The returned boolean is the Ok value
answered to the searcher (false asks the searcher to stop). -/
def MatchCollector.matchedStep (s : MatchCollector) (line_number : Nat)
    (bytes : String) : MatchCollector × Bool :=
  let s1 := { s with match_count := s.match_count + 1 }
  if s1.limit_reached then (s1, false)
  else if s1.skipped < s1.offset then
    ({ s1 with skipped := s1.skipped + 1, context_before := [] }, true)
  else
    let s2 :=
      if s1.collect_matches then
        let raw_line := bytesToTrimmedString bytes
        let lt := truncateLine s1.max_columns raw_line
        { s1 with
            «matches» := s1.«matches» ++ [⟨line_number, lt.1, s1.context_before, [], lt.2⟩],
            context_before := [] }
      else { s1 with context_before := [] }
    let s3 := { s2 with collected_count := s2.collected_count + 1 }
    let s4 :=
      match s3.max_count with
      | some mx => if mx ≤ s3.collected_count then { s3 with limit_reached := true } else s3
      | none => s3
    (s4, true)

/-- Sink::context for MatchCollector. -/
def MatchCollector.contextStep (s : MatchCollector) (kind : ContextKind)
    (line_number : Nat) (bytes : String) : MatchCollector × Bool :=
  if s.collect_matches then
    let raw_line := bytesToTrimmedString bytes
    let lt := truncateLine s.max_columns raw_line
    match kind with
    | ContextKind.Before =>
      ({ s with context_before := s.context_before ++ [⟨clampU32 line_number, lt.1⟩] }, true)
    | ContextKind.After =>
      ({ s with «matches» := appendAfterToLast ⟨clampU32 line_number, lt.1⟩ s.«matches» }, true)
    | ContextKind.Other => (s, true)
  else (s, true)

/-- Dispatch one searcher event to the corresponding Sink method. -/
def MatchCollector.step (s : MatchCollector) : SinkEvent → MatchCollector × Bool
  | SinkEvent.matched ln b => s.matchedStep ln b
  | SinkEvent.context k ln b => s.contextStep k ln b

/-- Drive the Sink over the searcher's event stream; a false answer from
the Sink stops the stream, as Searcher::search_reader does. -/
def runEvents (s : MatchCollector) : List SinkEvent → MatchCollector
  | [] => s
  | e :: es =>
    match MatchCollector.step s e with
    | (s', true) => runEvents s' es
    | (s', false) => s'

/-- struct SearchResultInternal. -/
structure SearchResultInternal where
  «matches» : List CollectedMatch
  match_count : Nat
  collected : Nat
  limit_reached : Bool
deriving DecidableEq

/-- run_search_reader: build a collector (collect_matches iff the mode is
Content) and drive it over the stream of events the searcher produces.
The context-line configuration of the searcher shapes the event stream
itself, which is taken as input here. -/
def runSearch (events : List SinkEvent) (mode : OutputMode)
    (max_columns : Option Nat) (max_count : Option Nat) (offset : Nat) :
    SearchResultInternal :=
  let c := runEvents
    (MatchCollector.new max_count offset max_columns (mode == OutputMode.Content)) events
  ⟨c.«matches», c.match_count, c.collected_count, c.limit_reached⟩

/-- Observable outcome of opening and searching one file on disk: the open
can fail (File::open returning Err), the search itself can fail with an
I/O error (run_search_reader returning Err), or the searcher delivers a
stream of events.  The first two are the per-file error cases the source
skips with continue / filter_map. -/
inductive FileOutcome where
  | openFail
  | readFail
  | ok (events : List SinkEvent)
deriving DecidableEq

/-- struct FileEntry together with what the filesystem does when the entry
is opened and searched.  The absolute path is irrelevant to the results
and is not modelled. -/
structure FileEntryM where
  relative_path : String
  outcome : FileOutcome
deriving DecidableEq

/-- struct GrepMatch. -/
structure GrepMatchM where
  path : String
  line_number : Nat
  line : String
  context_before : Option (List ContextLine)
  context_after : Option (List ContextLine)
  truncated : Option Bool
  match_count : Option Nat
deriving DecidableEq

/-- to_grep_match. -/
def toGrepMatch (path : String) (m : CollectedMatch) : GrepMatchM :=
  { path := path
    line_number := clampU32 m.line_number
    line := m.line
    context_before := if m.context_before.isEmpty then none else some m.context_before
    context_after := if m.context_after.isEmpty then none else some m.context_after
    truncated := if m.truncated then some true else none
    match_count := none }

/-- The count-mode record pushed per file (OutputMode::Count arms). -/
def countRecord (path : String) (mc : Nat) : GrepMatchM :=
  { path := path
    line_number := 0
    line := ""
    context_before := none
    context_after := none
    truncated := none
    match_count := some (clampU32 mc) }

/-- The mutable loop state of run_sequential_search. -/
structure SeqAcc where
  «matches» : List GrepMatchM
  total_matches : Nat
  collected : Nat
  files_with_matches : Nat
  files_searched : Nat
  limit_reached : Bool
deriving DecidableEq

/-- Initial loop state of run_sequential_search. -/
def initSeqAcc : SeqAcc := ⟨[], 0, 0, 0, 0, false⟩

/-- Option::is_some_and. -/
def optionIsSomeAnd (p : α → Bool) : Option α → Bool
  | some a => p a
  | none => false

/-- The part of the run_sequential_search loop body that is reached after
the limit checks, shared verbatim between the code-derived walk and the
specification-worded walk: open/read the file (or skip it on failure),
run the bounded search, and merge its outcome into the running state. -/
def seqBody (mode : OutputMode) (max_columns : Option Nat)
    (max_count : Option Nat) (acc : SeqAcc) (entry : FileEntryM)
    (remaining : Option Nat) (file_offset : Nat) : SeqAcc :=
  match entry.outcome with
  | FileOutcome.openFail => acc
  | FileOutcome.readFail => { acc with files_searched := acc.files_searched + 1 }
  | FileOutcome.ok events =>
    let acc1 := { acc with files_searched := acc.files_searched + 1 }
    let search := runSearch events mode max_columns remaining file_offset
    if search.match_count = 0 then acc1
    else
      let acc2 := { acc1 with
        files_with_matches := acc1.files_with_matches + 1
        total_matches := acc1.total_matches + search.match_count
        collected := acc1.collected + search.collected }
      let acc3 := { acc2 with
        «matches» := acc2.«matches» ++
          (match mode with
           | OutputMode.Content => search.«matches».map (toGrepMatch entry.relative_path)
           | OutputMode.Count => [countRecord entry.relative_path search.match_count]) }
      if search.limit_reached || optionIsSomeAnd (fun mx => mx ≤ acc3.collected) max_count
      then { acc3 with limit_reached := true }
      else acc3

/-- One iteration of the run_sequential_search loop body.  The loop's
break statements are modelled by setting / observing limit_reached: once
it is true every later iteration is the identity, which yields the same
final state as breaking out of the loop.  The local offset and budget are
the saturating subtractions of the source (Nat subtraction). -/
def seqStep (mode : OutputMode) (max_columns : Option Nat)
    (max_count : Option Nat) (offset : Nat)
    (acc : SeqAcc) (entry : FileEntryM) : SeqAcc :=
  if acc.limit_reached then acc
  else
    let file_offset := offset - acc.total_matches
    let remaining := max_count.map (fun mx => mx - acc.collected)
    if remaining = some 0 then { acc with limit_reached := true }
    else seqBody mode max_columns max_count acc entry remaining file_offset

/-- run_sequential_search as a fold of seqStep over the entry list. -/
def runSequentialSearch (mode : OutputMode) (max_columns : Option Nat)
    (max_count : Option Nat) (offset : Nat) :
    List FileEntryM → SeqAcc → SeqAcc
  | [], acc => acc
  | e :: rest, acc =>
    runSequentialSearch mode max_columns max_count offset rest
      (seqStep mode max_columns max_count offset acc e)

/-- struct FileSearchResult. -/
structure FileSearchResult where
  relative_path : String
  «matches» : List CollectedMatch
  match_count : Nat
deriving DecidableEq

/-- The per-file closure of run_parallel_search: open the file and run the
search with no maximum and no offset; open or read failures yield none
(filter_map drops them). -/
def searchEntry (mode : OutputMode) (max_columns : Option Nat)
    (e : FileEntryM) : Option FileSearchResult :=
  match e.outcome with
  | FileOutcome.ok events =>
    let s := runSearch events mode max_columns none 0
    some ⟨e.relative_path, s.«matches», s.match_count⟩
  | _ => none

/-- Stable insertion of a per-file result into a list sorted by relative
path; ties keep the earlier element first, as Rust's stable sort_by does. -/
def insertByPath (r : FileSearchResult) : List FileSearchResult → List FileSearchResult
  | [] => [r]
  | x :: xs =>
    if r.relative_path ≤ x.relative_path then r :: x :: xs else x :: insertByPath r xs

/-- results.sort_by(|a, b| a.relative_path.cmp(&b.relative_path)) as a
stable insertion sort. -/
def sortByPath (l : List FileSearchResult) : List FileSearchResult :=
  l.foldr insertByPath []

/-- run_parallel_search: search every openable file independently with no
limit and no offset, then restore path order.  Parallel completion order
is immaterial to the value produced, so the rayon fan-out is modelled as
the in-order filter_map it is equivalent to. -/
def runParallelSearch (entries : List FileEntryM) (mode : OutputMode)
    (max_columns : Option Nat) : List FileSearchResult :=
  sortByPath (entries.filterMap (searchEntry mode max_columns))

/-- struct GrepResult. -/
structure GrepResultM where
  «matches» : List GrepMatchM
  total_matches : Nat
  files_with_matches : Nat
  files_searched : Nat
  limit_reached : Option Bool
deriving DecidableEq

/-- Accumulator of grep_sync's aggregation loop over parallel results. -/
structure ParAcc where
  «matches» : List GrepMatchM
  total_matches : Nat
  files_with_matches : Nat
deriving DecidableEq

/-- One iteration of grep_sync's aggregation loop over parallel per-file
results (files with zero matches are skipped). -/
def parStep (mode : OutputMode) (acc : ParAcc) (r : FileSearchResult) : ParAcc :=
  if r.match_count = 0 then acc
  else
    { «matches» := acc.«matches» ++
        (match mode with
         | OutputMode.Content => r.«matches».map (toGrepMatch r.relative_path)
         | OutputMode.Count => [countRecord r.relative_path r.match_count])
      total_matches := acc.total_matches + r.match_count
      files_with_matches := acc.files_with_matches + 1 }

/-- The parallel branch of grep_sync's directory path: run the parallel
search, aggregate, and return with limit_reached always None.  The
streaming callback only mirrors the records already accumulated and has
no effect on the result value. -/
def grepParallel (entries : List FileEntryM) (mode : OutputMode)
    (max_columns : Option Nat) : GrepResultM :=
  let results := runParallelSearch entries mode max_columns
  let acc := results.foldl (parStep mode) ⟨[], 0, 0⟩
  { «matches» := acc.«matches»
    total_matches := clampU32 acc.total_matches
    files_with_matches := acc.files_with_matches
    files_searched := results.length
    limit_reached := none }

/-- The sequential branch of grep_sync's directory path. -/
def grepSequential (entries : List FileEntryM) (mode : OutputMode)
    (max_columns : Option Nat) (max_count : Option Nat) (offset : Nat) :
    GrepResultM :=
  let a := runSequentialSearch mode max_columns max_count offset entries initSeqAcc
  { «matches» := a.«matches»
    total_matches := clampU32 a.total_matches
    files_with_matches := a.files_with_matches
    files_searched := a.files_searched
    limit_reached := if a.limit_reached then some true else none }

/-- let allow_parallel = max_count.is_none() && offset == 0. -/
def allowParallel (max_count : Option Nat) (offset : Nat) : Bool :=
  max_count.isNone && offset == 0

/-- The directory branch of grep_sync, after collect_files produced the
candidate entries. -/
def grepSyncDir (entries : List FileEntryM) (mode : OutputMode)
    (max_columns : Option Nat) (max_count : Option Nat) (offset : Nat) :
    GrepResultM :=
  if entries.isEmpty then ⟨[], 0, 0, 0, none⟩
  else if allowParallel max_count offset then grepParallel entries mode max_columns
  else grepSequential entries mode max_columns max_count offset

/-- struct TypeFilter. -/
structure TypeFilter where
  extensions : List String
  names : List String
deriving DecidableEq

/-- str::to_lowercase, restricted to the ASCII range that the type table
uses (Char.toLower lowers exactly the ASCII uppercase letters). -/
def toLowerStr (s : String) : String := String.mk (s.data.map Char.toLower)

/-- str::trim: drop leading and trailing whitespace characters. -/
def strTrim (s : String) : String :=
  String.mk (((s.data.dropWhile Char.isWhitespace).reverse.dropWhile Char.isWhitespace).reverse)

/-- matches_case_insensitive. -/
def matchesCaseInsensitive (value : String) (candidates : List String) : Bool :=
  if value.data.all (fun c => c.toNat ≤ 127) then
    candidates.any (fun cand => value.data.map Char.toLower == cand.data.map Char.toLower)
  else
    candidates.any (fun cand => cand == toLowerStr value)

/-- Path::file_name on a path given as its list of components. -/
def fileName (path : List String) : String := (path.getLast?).getD ""

/-- Path::extension of a file name: the suffix after the last dot, empty
when there is no dot or when the only dot is the leading one (a dotfile
has no extension). -/
def extOfName (name : String) : String :=
  let rev := name.data.reverse
  if rev.contains '.' then
    let after := rev.takeWhile (fun c => c ≠ '.')
    if name.data.length = after.length + 1 then ""
    else String.mk after.reverse
  else ""

/-- matches_type_filter. -/
def matchesTypeFilter (path : List String) (f : TypeFilter) : Bool :=
  let base_name := fileName path
  if matchesCaseInsensitive base_name f.names then true
  else
    let ext := extOfName base_name
    if ext = "" then false
    else matchesCaseInsensitive ext f.extensions

/-- str::trim_start_matches with a dot pattern: drop every leading dot. -/
def dropLeadingDots (s : String) : String :=
  String.mk (s.data.dropWhile (fun c => c = '.'))

/-- resolve_type_filter: normalize (trim, strip leading dots, lowercase)
then look the shorthand up in the static table; unknown shorthands become
a single extension. -/
def resolveTypeFilter (type_name : Option String) : Option TypeFilter :=
  match type_name with
  | none => none
  | some raw =>
    let t := strTrim raw
    if t = "" then none
    else
      let normalized := toLowerStr (dropLeadingDots t)
      let p : List String × List String :=
        match normalized with
        | "js" | "javascript" => (["js", "jsx", "mjs", "cjs"], [])
        | "ts" | "typescript" => (["ts", "tsx", "mts", "cts"], [])
        | "json" => (["json", "jsonc", "json5"], [])
        | "yaml" | "yml" => (["yaml", "yml"], [])
        | "toml" => (["toml"], [])
        | "md" | "markdown" => (["md", "markdown", "mdx"], [])
        | "py" | "python" => (["py", "pyi"], [])
        | "rs" | "rust" => (["rs"], [])
        | "go" => (["go"], [])
        | "java" => (["java"], [])
        | "kt" | "kotlin" => (["kt", "kts"], [])
        | "c" => (["c", "h"], [])
        | "cpp" | "cxx" => (["cpp", "cc", "cxx", "hpp", "hxx", "hh"], [])
        | "cs" | "csharp" => (["cs", "csx"], [])
        | "php" => (["php", "phtml"], [])
        | "rb" | "ruby" => (["rb", "rake", "gemspec"], [])
        | "sh" | "bash" => (["sh", "bash", "zsh"], [])
        | "zsh" => (["zsh"], [])
        | "fish" => (["fish"], [])
        | "html" => (["html", "htm"], [])
        | "css" => (["css"], [])
        | "scss" => (["scss"], [])
        | "sass" => (["sass"], [])
        | "less" => (["less"], [])
        | "xml" => (["xml"], [])
        | "docker" | "dockerfile" => ([], ["dockerfile"])
        | "make" | "makefile" => ([], ["makefile"])
        | _ => ([normalized], [])
      some ⟨p.1, p.2⟩

/-- build_glob_pattern: normalize separators and make bare patterns match
at any depth. -/
def buildGlobPattern (glob : String) : String :=
  let normalized := String.mk (glob.data.map (fun c => if c = '\\' then '/' else c))
  if normalized.data.contains '/' || "**/".data.isPrefixOf normalized.data then normalized
  else "**/" ++ normalized

/-- compile_glob: a missing, empty or whitespace-only glob compiles to no
filter; otherwise the trimmed pattern is normalized.  The globset engine
that turns the pattern into a matcher is external; this returns the
pattern handed to it. -/
def compileGlob (glob : Option String) : Option String :=
  match glob with
  | none => none
  | some g =>
    let t := strTrim g
    if t = "" then none else some (buildGlobPattern t)

/-- One entry yielded by the directory walker, as a component path plus
whether it is a regular file. -/
structure WalkEntry where
  path : List String
  is_file : Bool
deriving DecidableEq

/-- A candidate file produced by collect_files. -/
structure DiscoveredFile where
  path : List String
  relative_path : List String
deriving DecidableEq

/-- path.strip_prefix(root).unwrap_or(path) on component paths. -/
def stripRoot (root path : List String) : List String :=
  if root.isPrefixOf path then path.drop root.length else path

/-- collect_files: keep regular files whose root-relative path matches the
glob (when one is given) and whose path matches the type filter (when one
is given).  The walker itself (ignore rules, hidden files, sort order) is
external and is taken as the list of entries it yields; the compiled glob
matcher is external and is taken as a predicate. -/
def collectFiles (root : List String) (walk : List WalkEntry)
    (glob_set : Option (List String → Bool)) (type_filter : Option TypeFilter) :
    List DiscoveredFile :=
  walk.filterMap (fun entry =>
    if !entry.is_file then none
    else
      let globOk :=
        match glob_set with
        | some g => g (stripRoot root entry.path)
        | none => true
      if !globOk then none
      else
        let typeOk :=
          match type_filter with
          | some f => matchesTypeFilter entry.path f
          | none => true
        if !typeOk then none
        else some ⟨entry.path, stripRoot root entry.path⟩)

/-- The filter pipeline of grep_sync for a directory root: compile the
glob option, hand the compiled pattern to the external glob engine,
resolve the type option, and collect candidate files. -/
def collectFilesOpt (root : List String) (walk : List WalkEntry)
    (glob : Option String) (glob_engine : String → List String → Bool)
    (type_name : Option String) : List DiscoveredFile :=
  collectFiles root walk ((compileGlob glob).map glob_engine) (resolveTypeFilter type_name)

/-- One file of the sequential walk written following the specification's
words: the local offset is max(0, global_offset - total_matches_seen) and
the local remaining budget is global_max - collected_so_far, both as
integers; the walk stops immediately, with limit_reached set, when the
remaining budget is exactly zero, and stops as soon as limit_reached is
true.  The rest of the iteration is the walk body shared with the code. -/
def seqStepSpec (mode : OutputMode) (max_columns : Option Nat)
    (max_count : Option Nat) (offset : Nat)
    (acc : SeqAcc) (entry : FileEntryM) : SeqAcc :=
  if acc.limit_reached then acc
  else
    let localOffset : Int := max 0 ((offset : Int) - (acc.total_matches : Int))
    let localBudget : Option Int :=
      max_count.map (fun mx => (mx : Int) - (acc.collected : Int))
    if localBudget = some 0 then { acc with limit_reached := true }
    else
      seqBody mode max_columns max_count acc entry
        (localBudget.map Int.toNat) localOffset.toNat

/-- The sequential walk written following the specification's words, as a
fold of seqStepSpec. -/
def seqWalkSpec (mode : OutputMode) (max_columns : Option Nat)
    (max_count : Option Nat) (offset : Nat) :
    List FileEntryM → SeqAcc → SeqAcc
  | [], acc => acc
  | e :: rest, acc =>
    seqWalkSpec mode max_columns max_count offset rest
      (seqStepSpec mode max_columns max_count offset acc e)

/-- Records contributed to the final match list by one parallel per-file
result (the body of grep_sync's aggregation loop). -/
def resMatches (mode : OutputMode) (r : FileSearchResult) : List GrepMatchM :=
  if r.match_count = 0 then []
  else
    match mode with
    | OutputMode.Content => r.«matches».map (toGrepMatch r.relative_path)
    | OutputMode.Count => [countRecord r.relative_path r.match_count]

/-- Records contributed to the final match list by one entry under the
limit-free search both strategies run when no maximum and no offset are
requested. -/
def entryMatches (mode : OutputMode) (max_columns : Option Nat)
    (e : FileEntryM) : List GrepMatchM :=
  match e.outcome with
  | FileOutcome.ok events =>
    resMatches mode ⟨e.relative_path,
      (runSearch events mode max_columns none 0).«matches»,
      (runSearch events mode max_columns none 0).match_count⟩
  | _ => []

/-- Matches contributed by one entry to the aggregate total under the
limit-free search. -/
def entryTotal (mode : OutputMode) (max_columns : Option Nat)
    (e : FileEntryM) : Nat :=
  match e.outcome with
  | FileOutcome.ok events => (runSearch events mode max_columns none 0).match_count
  | _ => 0

/-- Contribution of one entry to the collected running total under the
limit-free search (zero when the file is skipped as matchless). -/
def entryCollected (mode : OutputMode) (max_columns : Option Nat)
    (e : FileEntryM) : Nat :=
  match e.outcome with
  | FileOutcome.ok events =>
    if (runSearch events mode max_columns none 0).match_count = 0 then 0
    else (runSearch events mode max_columns none 0).collected
  | _ => 0

/-- Contribution of one entry to files_with_matches under the limit-free
search. -/
def entryFwm (mode : OutputMode) (max_columns : Option Nat)
    (e : FileEntryM) : Nat :=
  match e.outcome with
  | FileOutcome.ok events =>
    if (runSearch events mode max_columns none 0).match_count = 0 then 0 else 1
  | _ => 0

/-- Contribution of one entry to files_searched in the sequential
strategy: every file that opens is counted, even when reading it fails. -/
def entrySearchedSeq (e : FileEntryM) : Nat :=
  match e.outcome with
  | FileOutcome.openFail => 0
  | _ => 1

/-- Contribution of one entry to files_searched in the parallel strategy:
only files that open and read successfully survive the filter_map. -/
def entrySearchedPar (e : FileEntryM) : Nat :=
  match e.outcome with
  | FileOutcome.ok _ => 1
  | _ => 0

/-- Collector invariant: retained matches never outnumber collected
matches, collected matches never outnumber seen matches, and a configured
maximum bounds the collected count by max(maximum, 1), strictly while the
limit flag is still unset. -/
def GoodState (s : MatchCollector) : Prop :=
  s.«matches».length ≤ s.collected_count ∧
  s.collected_count ≤ s.match_count ∧
  ∀ mx, s.max_count = some mx →
    s.collected_count ≤ Nat.max mx 1 ∧
    (s.limit_reached = false → s.collected_count < Nat.max mx 1)

theorem matchedStep_limit (s : MatchCollector) (ln : Nat) (b : String)
    (h : s.limit_reached = true) :
    s.matchedStep ln b = ({ s with match_count := s.match_count + 1 }, false) := by
  simp [MatchCollector.matchedStep, h]

theorem matchedStep_skip (s : MatchCollector) (ln : Nat) (b : String)
    (h1 : s.limit_reached = false) (h2 : s.skipped < s.offset) :
    s.matchedStep ln b =
      ({ s with
          match_count := s.match_count + 1,
          skipped := s.skipped + 1,
          context_before := [] }, true) := by
  simp [MatchCollector.matchedStep, h1, h2]

theorem matchedStep_collect (s : MatchCollector) (ln : Nat) (b : String)
    (h1 : s.limit_reached = false) (h2 : ¬ s.skipped < s.offset)
    (h3 : s.collect_matches = true) :
    s.matchedStep ln b =
      ({ s with
          match_count := s.match_count + 1,
          «matches» := s.«matches» ++
            [⟨ln, (truncateLine s.max_columns (bytesToTrimmedString b)).1,
              s.context_before, [],
              (truncateLine s.max_columns (bytesToTrimmedString b)).2⟩],
          context_before := [],
          collected_count := s.collected_count + 1,
          limit_reached :=
            optionIsSomeAnd (fun mx => mx ≤ s.collected_count + 1) s.max_count },
        true) := by
  obtain ⟨ms, mc, cc, maxc, off, sk, lr, cb, cols, col⟩ := s
  simp only at h1 h2 h3
  subst h1 h3
  cases maxc with
  | none => simp [MatchCollector.matchedStep, h2, optionIsSomeAnd]
  | some mx =>
    by_cases hle : mx ≤ cc + 1 <;>
      simp [MatchCollector.matchedStep, h2, optionIsSomeAnd, hle]

theorem matchedStep_nocollect (s : MatchCollector) (ln : Nat) (b : String)
    (h1 : s.limit_reached = false) (h2 : ¬ s.skipped < s.offset)
    (h3 : s.collect_matches = false) :
    s.matchedStep ln b =
      ({ s with
          match_count := s.match_count + 1,
          context_before := [],
          collected_count := s.collected_count + 1,
          limit_reached :=
            optionIsSomeAnd (fun mx => mx ≤ s.collected_count + 1) s.max_count },
        true) := by
  obtain ⟨ms, mc, cc, maxc, off, sk, lr, cb, cols, col⟩ := s
  simp only at h1 h2 h3
  subst h1 h3
  cases maxc with
  | none => simp [MatchCollector.matchedStep, h2, optionIsSomeAnd]
  | some mx =>
    by_cases hle : mx ≤ cc + 1 <;>
      simp [MatchCollector.matchedStep, h2, optionIsSomeAnd, hle]

theorem contextStep_before (s : MatchCollector) (ln : Nat) (b : String)
    (h : s.collect_matches = true) :
    s.contextStep ContextKind.Before ln b =
      ({ s with
          context_before := s.context_before ++
            [⟨clampU32 ln, (truncateLine s.max_columns (bytesToTrimmedString b)).1⟩] },
        true) := by
  simp [MatchCollector.contextStep, h]

theorem contextStep_after (s : MatchCollector) (ln : Nat) (b : String)
    (h : s.collect_matches = true) :
    s.contextStep ContextKind.After ln b =
      ({ s with
          «matches» := appendAfterToLast
            ⟨clampU32 ln, (truncateLine s.max_columns (bytesToTrimmedString b)).1⟩
            s.«matches» }, true) := by
  simp [MatchCollector.contextStep, h]

theorem contextStep_other (s : MatchCollector) (ln : Nat) (b : String)
    (h : s.collect_matches = true) :
    s.contextStep ContextKind.Other ln b = (s, true) := by
  simp [MatchCollector.contextStep, h]

theorem contextStep_nocollect (s : MatchCollector) (k : ContextKind) (ln : Nat)
    (b : String) (h : s.collect_matches = false) :
    s.contextStep k ln b = (s, true) := by
  simp [MatchCollector.contextStep, h]

theorem runEvents_nil (s : MatchCollector) : runEvents s [] = s := rfl

theorem runEvents_cons_cont (s s' : MatchCollector) (e : SinkEvent)
    (es : List SinkEvent) (h : s.step e = (s', true)) :
    runEvents s (e :: es) = runEvents s' es := by
  simp [runEvents, h]

theorem runEvents_cons_stop (s s' : MatchCollector) (e : SinkEvent)
    (es : List SinkEvent) (h : s.step e = (s', false)) :
    runEvents s (e :: es) = s' := by
  simp [runEvents, h]

theorem appendAfterToLast_length (cl : ContextLine) (l : List CollectedMatch) :
    (appendAfterToLast cl l).length = l.length := by
  induction l with
  | nil => rfl
  | cons m rest ih =>
    cases rest with
    | nil => rfl
    | cons m2 rest2 => simpa [appendAfterToLast] using ih

theorem step_preserves_cfg (s : MatchCollector) (e : SinkEvent) :
    (s.step e).1.max_count = s.max_count ∧
    (s.step e).1.offset = s.offset ∧
    (s.step e).1.max_columns = s.max_columns ∧
    (s.step e).1.collect_matches = s.collect_matches := by
  cases e with
  | matched ln b =>
    by_cases h1 : s.limit_reached = true
    · simp [MatchCollector.step, matchedStep_limit s ln b h1]
    · replace h1 : s.limit_reached = false := by simpa using h1
      by_cases h2 : s.skipped < s.offset
      · simp [MatchCollector.step, matchedStep_skip s ln b h1 h2]
      · by_cases h3 : s.collect_matches = true
        · simp [MatchCollector.step, matchedStep_collect s ln b h1 h2 h3]
        · replace h3 : s.collect_matches = false := by simpa using h3
          simp [MatchCollector.step, matchedStep_nocollect s ln b h1 h2 h3]
  | context k ln b =>
    by_cases h : s.collect_matches = true
    · cases k
      · simp [MatchCollector.step, contextStep_before s ln b h]
      · simp [MatchCollector.step, contextStep_after s ln b h]
      · simp [MatchCollector.step, contextStep_other s ln b h]
    · replace h : s.collect_matches = false := by simpa using h
      simp [MatchCollector.step, contextStep_nocollect s k ln b h]

theorem step_good (s : MatchCollector) (e : SinkEvent) (hg : GoodState s) :
    GoodState (s.step e).1 := by
  obtain ⟨ms, mc, cc, maxc, off, sk, lr, cb, cols, col⟩ := s
  obtain ⟨hlen, hcm, hmax⟩ := hg
  simp only at hlen hcm hmax
  cases e with
  | matched ln b =>
    cases lr with
    | true =>
      rw [MatchCollector.step, matchedStep_limit _ ln b rfl]
      exact ⟨hlen, by simpa using Nat.le_succ_of_le hcm, fun mx hmx =>
        ⟨(hmax mx hmx).1, fun hlr => by simp at hlr⟩⟩
    | false =>
      by_cases h2 : sk < off
      · rw [MatchCollector.step, matchedStep_skip _ ln b rfl h2]
        exact ⟨hlen, by simpa using Nat.le_succ_of_le hcm, fun mx hmx =>
          ⟨(hmax mx hmx).1, fun _ => (hmax mx hmx).2 rfl⟩⟩
      · have key : ∀ mx, maxc = some mx →
            cc + 1 ≤ Nat.max mx 1 ∧
            (optionIsSomeAnd (fun mx => mx ≤ cc + 1) maxc = false →
              cc + 1 < Nat.max mx 1) := by
          intro mx hmx
          have hb := (hmax mx hmx).2 rfl
          subst hmx
          refine ⟨Nat.succ_le_of_lt hb, fun hq => ?_⟩
          simp only [optionIsSomeAnd, decide_eq_false_iff_not] at hq
          exact Nat.lt_of_lt_of_le (by omega) (Nat.le_max_left mx 1)
        cases col with
        | true =>
          rw [MatchCollector.step, matchedStep_collect _ ln b rfl h2 rfl]
          refine ⟨?_, by simpa using by omega, fun mx hmx => (key mx hmx)⟩
          simpa using hlen
        | false =>
          rw [MatchCollector.step, matchedStep_nocollect _ ln b rfl h2 rfl]
          exact ⟨by simpa using Nat.le_succ_of_le hlen, by simpa using by omega,
            fun mx hmx => (key mx hmx)⟩
  | context k ln b =>
    cases col with
    | true =>
      cases k with
      | Before =>
        rw [MatchCollector.step, contextStep_before _ ln b rfl]
        exact ⟨hlen, hcm, hmax⟩
      | After =>
        rw [MatchCollector.step, contextStep_after _ ln b rfl]
        exact ⟨by simpa [appendAfterToLast_length] using hlen, hcm, hmax⟩
      | Other =>
        rw [MatchCollector.step, contextStep_other _ ln b rfl]
        exact ⟨hlen, hcm, hmax⟩
    | false =>
      rw [MatchCollector.step, contextStep_nocollect _ k ln b rfl]
      exact ⟨hlen, hcm, hmax⟩

theorem runEvents_good (es : List SinkEvent) (s : MatchCollector)
    (hg : GoodState s) : GoodState (runEvents s es) := by
  induction es generalizing s with
  | nil => simpa [runEvents] using hg
  | cons e es ih =>
    have hstep := step_good s e hg
    rcases hpair : s.step e with ⟨s', c⟩
    rw [hpair] at hstep
    cases c
    · rw [runEvents_cons_stop s s' e es hpair]
      exact hstep
    · rw [runEvents_cons_cont s s' e es hpair]
      exact ih s' hstep

theorem step_limit_none (s : MatchCollector) (e : SinkEvent)
    (h1 : s.max_count = none) (h2 : s.limit_reached = false) :
    (s.step e).1.limit_reached = false := by
  cases e with
  | matched ln b =>
    by_cases hsk : s.skipped < s.offset
    · simp [MatchCollector.step, matchedStep_skip s ln b h2 hsk, h2]
    · by_cases h3 : s.collect_matches = true
      · simp [MatchCollector.step, matchedStep_collect s ln b h2 hsk h3, h1, optionIsSomeAnd]
      · replace h3 : s.collect_matches = false := by simpa using h3
        simp [MatchCollector.step, matchedStep_nocollect s ln b h2 hsk h3, h1, optionIsSomeAnd]
  | context k ln b =>
    by_cases h : s.collect_matches = true
    · cases k
      · simp [MatchCollector.step, contextStep_before s ln b h, h2]
      · simp [MatchCollector.step, contextStep_after s ln b h, h2]
      · simp [MatchCollector.step, contextStep_other s ln b h, h2]
    · replace h : s.collect_matches = false := by simpa using h
      simp [MatchCollector.step, contextStep_nocollect s k ln b h, h2]

theorem runEvents_limit_none (es : List SinkEvent) (s : MatchCollector)
    (h1 : s.max_count = none) (h2 : s.limit_reached = false) :
    (runEvents s es).limit_reached = false := by
  induction es generalizing s with
  | nil => simpa [runEvents] using h2
  | cons e es ih =>
    have hstep := step_limit_none s e h1 h2
    have hcfg := (step_preserves_cfg s e).1
    rcases hpair : s.step e with ⟨s', c⟩
    rw [hpair] at hstep hcfg
    cases c
    · rw [runEvents_cons_stop s s' e es hpair]
      exact hstep
    · rw [runEvents_cons_cont s s' e es hpair]
      exact ih s' (hcfg.trans h1) hstep

theorem runEvents_cfg (es : List SinkEvent) (s : MatchCollector) :
    (runEvents s es).max_count = s.max_count ∧
    (runEvents s es).offset = s.offset ∧
    (runEvents s es).max_columns = s.max_columns ∧
    (runEvents s es).collect_matches = s.collect_matches := by
  induction es generalizing s with
  | nil => simp [runEvents]
  | cons e es ih =>
    have hstep := step_preserves_cfg s e
    rcases hpair : s.step e with ⟨s', c⟩
    rw [hpair] at hstep
    cases c
    · rw [runEvents_cons_stop s s' e es hpair]
      exact hstep
    · rw [runEvents_cons_cont s s' e es hpair]
      obtain ⟨a1, a2, a3, a4⟩ := ih s'
      exact ⟨hstep.1 ▸ a1, hstep.2.1 ▸ a2, hstep.2.2.1 ▸ a3, hstep.2.2.2 ▸ a4⟩

theorem new_good (maxc : Option Nat) (off : Nat) (cols : Option Nat)
    (col : Bool) : GoodState (MatchCollector.new maxc off cols col) := by
  refine ⟨Nat.le_refl 0, Nat.le_refl 0, fun mx _ => ⟨Nat.zero_le _, fun _ => ?_⟩⟩
  exact Nat.lt_of_lt_of_le Nat.one_pos (Nat.le_max_right mx 1)

theorem runSearch_good (events : List SinkEvent) (mode : OutputMode)
    (cols maxc : Option Nat) (off : Nat) :
    (runSearch events mode cols maxc off).«matches».length ≤
      (runSearch events mode cols maxc off).collected ∧
    (runSearch events mode cols maxc off).collected ≤
      (runSearch events mode cols maxc off).match_count ∧
    ∀ mx, maxc = some mx →
      (runSearch events mode cols maxc off).collected ≤ Nat.max mx 1 := by
  have hg := runEvents_good events
    (MatchCollector.new maxc off cols (mode == OutputMode.Content))
    (new_good maxc off cols (mode == OutputMode.Content))
  have hcfg := (runEvents_cfg events
    (MatchCollector.new maxc off cols (mode == OutputMode.Content))).1
  obtain ⟨hlen, hcm, hmax⟩ := hg
  refine ⟨hlen, hcm, fun mx hmx => ?_⟩
  exact (hmax mx (by rw [hcfg, MatchCollector.new, hmx])).1

theorem runSearch_collected_le (events : List SinkEvent) (mode : OutputMode)
    (cols : Option Nat) (mx off : Nat) (hmx : 1 ≤ mx) :
    (runSearch events mode cols (some mx) off).collected ≤ mx := by
  have h := (runSearch_good events mode cols (some mx) off).2.2 mx rfl
  have : Nat.max mx 1 = mx := Nat.max_eq_left hmx
  rwa [this] at h

theorem runSearch_limit_none (events : List SinkEvent) (mode : OutputMode)
    (cols : Option Nat) (off : Nat) :
    (runSearch events mode cols none off).limit_reached = false := by
  exact runEvents_limit_none events _ rfl rfl

theorem appendAfterToLast_concat (cl : ContextLine) (pre : List CollectedMatch)
    (m : CollectedMatch) :
    appendAfterToLast cl (pre ++ [m]) =
      pre ++ [{ m with context_after := m.context_after ++ [cl] }] := by
  induction pre with
  | nil => rfl
  | cons p ps ih =>
    cases ps with
    | nil => simp [appendAfterToLast]
    | cons q qs => simpa [appendAfterToLast] using ih

/-- Claim C6 (amended): for every sequence of match and context
notifications, any offset and any optional maximum, the final collector
state satisfies collected_count ≤ match_count and the retained match list
is no longer than collected_count; when a maximum m is configured both
are bounded by max(m, 1), hence by m itself whenever m ≥ 1.  (The claim's
unconditional bound collected_count ≤ max_count fails at max_count = 0,
where the collector still retains one match; see the counterexample.) -/
theorem c6_collector_invariants :
    ∀ (events : List SinkEvent) (mode : OutputMode) (cols maxc : Option Nat)
      (off : Nat),
    (runSearch events mode cols maxc off).collected ≤
      (runSearch events mode cols maxc off).match_count ∧
    (runSearch events mode cols maxc off).«matches».length ≤
      (runSearch events mode cols maxc off).collected ∧
    ∀ mx, maxc = some mx →
      (runSearch events mode cols maxc off).collected ≤ Nat.max mx 1 ∧
      (1 ≤ mx → (runSearch events mode cols maxc off).collected ≤ mx ∧
        (runSearch events mode cols maxc off).«matches».length ≤ mx) := by
  intro events mode cols maxc off
  obtain ⟨hlen, hcm, hmax⟩ := runSearch_good events mode cols maxc off
  refine ⟨hcm, hlen, fun mx hmx => ⟨hmax mx hmx, fun h1 => ?_⟩⟩
  subst hmx
  have hc := runSearch_collected_le events mode cols mx off h1
  exact ⟨hc, Nat.le_trans hlen hc⟩

/-- Claim C6, counterexample to the claim as stated: with a configured
maximum of 0 the collector still collects one match, so collected_count
exceeds max_count. -/
theorem c6_counterexample :
    ¬ ((runSearch [SinkEvent.matched 1 "x"] OutputMode.Content none
        (some 0) 0).collected ≤ 0) := by
  decide

/-- Claim C6, witness: the amended theorem applied at a concrete stream
with maximum 1. -/
theorem c6_witness :
    (runSearch [SinkEvent.matched 1 "x", SinkEvent.matched 2 "y"]
      OutputMode.Content none (some 1) 0).collected ≤ 1 :=
  (((c6_collector_invariants
    [SinkEvent.matched 1 "x", SinkEvent.matched 2 "y"]
    OutputMode.Content none (some 1) 0).2.2 1 rfl).2 (by decide)).1

/-- Claim C2: in the streaming collector, (a) a match notification that
fills the configured maximum sets limit_reached but still answers the
searcher with a continue signal and counts the match as collected; (b)
while matches are being collected an after-context notification is
attached to the most recently collected match and scanning continues, so
after-context arriving after the limit fired still reaches the
just-collected match; (c) once limit_reached is set, the next match
notification still increments match_count (the running true total) but is
answered with a stop signal. -/
theorem c2_streaming_collector :
    ∀ (s : MatchCollector) (ln : Nat) (b : String) (mx : Nat),
    (s.limit_reached = false → ¬ s.skipped < s.offset → s.max_count = some mx →
      mx ≤ s.collected_count + 1 →
      (s.matchedStep ln b).2 = true ∧
      (s.matchedStep ln b).1.limit_reached = true ∧
      (s.matchedStep ln b).1.collected_count = s.collected_count + 1 ∧
      (s.matchedStep ln b).1.match_count = s.match_count + 1) ∧
    (s.collect_matches = true →
      ∀ (pre : List CollectedMatch) (m : CollectedMatch),
        s.«matches» = pre ++ [m] →
        (s.contextStep ContextKind.After ln b).2 = true ∧
        (s.contextStep ContextKind.After ln b).1.«matches» =
          pre ++ [{ m with context_after := m.context_after ++
            [⟨clampU32 ln,
              (truncateLine s.max_columns (bytesToTrimmedString b)).1⟩] }]) ∧
    (s.limit_reached = true →
      s.matchedStep ln b = ({ s with match_count := s.match_count + 1 }, false)) := by
  intro s ln b mx
  refine ⟨?_, ?_, fun h => matchedStep_limit s ln b h⟩
  · intro h1 h2 h3 h4
    by_cases h5 : s.collect_matches = true
    · rw [matchedStep_collect s ln b h1 h2 h5]
      simp [optionIsSomeAnd, h3, h4]
    · replace h5 : s.collect_matches = false := by simpa using h5
      rw [matchedStep_nocollect s ln b h1 h2 h5]
      simp [optionIsSomeAnd, h3, h4]
  · intro h5 pre m hm
    rw [contextStep_after s ln b h5]
    exact ⟨rfl, by simp [hm, appendAfterToLast_concat]⟩

/-- Claim C2, witness: the three behaviors at concrete collector states. -/
theorem c2_witness :
    ((MatchCollector.new (some 1) 0 none true).matchedStep 1 "x").1.limit_reached
        = true ∧
    ((MatchCollector.mk [⟨1, "m", [], [], false⟩] 1 1 (some 1) 0 0 true [] none
      true).contextStep ContextKind.After 2 "a").1.«matches» =
        [⟨1, "m", [], [⟨2, "a"⟩], false⟩] ∧
    ((MatchCollector.mk [⟨1, "m", [], [], false⟩] 1 1 (some 1) 0 0 true [] none
      true).matchedStep 3 "z").2 = false := by
  refine ⟨?_, ?_, ?_⟩
  · exact ((c2_streaming_collector (MatchCollector.new (some 1) 0 none true)
      1 "x" 1).1 rfl (by decide) rfl (by decide)).2.1
  · have h := ((c2_streaming_collector
      (MatchCollector.mk [⟨1, "m", [], [], false⟩] 1 1 (some 1) 0 0 true [] none true)
      2 "a" 1).2.1 rfl [] ⟨1, "m", [], [], false⟩ rfl).2
    simpa using h
  · have h := (c2_streaming_collector
      (MatchCollector.mk [⟨1, "m", [], [], false⟩] 1 1 (some 1) 0 0 true [] none true)
      3 "z" 1).2.2 rfl
    rw [h]

theorem utf8Len_cons (c : Char) (l : List Char) :
    utf8Len (c :: l) = c.utf8Size + utf8Len l := by
  simp [utf8Len]

theorem takeToBoundary_spec (cs : List Char) (budget : Nat) :
    ∃ rest, cs = takeToBoundary cs budget ++ rest ∧
      utf8Len (takeToBoundary cs budget) ≤ budget ∧
      ∀ c cs', rest = c :: cs' →
        budget < utf8Len (takeToBoundary cs budget) + c.utf8Size := by
  induction cs generalizing budget with
  | nil =>
    exact ⟨[], by simp [takeToBoundary], by simp [takeToBoundary, utf8Len],
      fun c cs' h => by simp at h⟩
  | cons c cs ih =>
    by_cases h : c.utf8Size ≤ budget
    · obtain ⟨rest, hdec, hlen, hmaxi⟩ := ih (budget - c.utf8Size)
      refine ⟨rest, ?_, ?_, ?_⟩
      · simp only [takeToBoundary, if_pos h, List.cons_append]
        exact congrArg (c :: ·) hdec
      · simp only [takeToBoundary, if_pos h, utf8Len_cons]
        omega
      · intro d ds hd
        have := hmaxi d ds hd
        simp only [takeToBoundary, if_pos h, utf8Len_cons]
        omega
    · refine ⟨c :: cs, ?_, ?_, ?_⟩
      · simp [takeToBoundary, if_neg h]
      · simp [takeToBoundary, if_neg h, utf8Len]
      · intro d ds hd
        injection hd with hc hcs
        subst hc
        simp only [takeToBoundary, if_neg h, utf8Len]
        simpa using Nat.lt_of_not_le h

/-- Claim C5 (amended): lengths are the UTF-8 byte lengths the source
compares (line.len()).  A line whose byte length is exactly the budget is
returned untruncated; a line whose byte length exceeds the budget (in
particular by one) is truncated and flagged; the truncated text is a
whole-character prefix of the line (no multi-byte character is split) of
byte length at most budget - 3, maximal among such prefixes, with an
ellipsis appended.  (The claim as stated measures the budget in
characters; it fails on multi-byte lines, see the counterexample.) -/
theorem c5_truncation :
    ∀ (mx : Nat) (line : String),
    (utf8Len line.data = mx → truncateLine (some mx) line = (line, false)) ∧
    (utf8Len line.data > mx →
      (truncateLine (some mx) line).2 = true ∧
      ∃ pfx rest, line.data = pfx ++ rest ∧
        (truncateLine (some mx) line).1.data = pfx ++ "...".data ∧
        utf8Len pfx ≤ mx - 3 ∧
        (∀ c cs, rest = c :: cs → mx - 3 < utf8Len pfx + c.utf8Size)) := by
  intro mx line
  constructor
  · intro h
    simp [truncateLine, h]
  · intro h
    obtain ⟨rest, hdec, hlen, hmaxi⟩ := takeToBoundary_spec line.data (mx - 3)
    refine ⟨by simp [truncateLine, h], takeToBoundary line.data (mx - 3), rest,
      hdec, by simp [truncateLine, h], hlen, hmaxi⟩

/-- Claim C5, counterexample to the claim as stated: under the
character-count reading of the column budget, a four-character line of
two-byte characters is exactly at budget 4 and should be returned
untruncated, but the source compares byte lengths and truncates it. -/
theorem c5_counterexample :
    (truncateLine (some 4) "éééé").2 = true ∧
    ¬ (truncateLine (some 4) "éééé" = ("éééé", false)) := by
  constructor
  · decide
  · decide

/-- Claim C5, witness: the amended theorem applied at a line of exactly
the budget and at a line one byte over it. -/
theorem c5_witness :
    truncateLine (some 4) "abcd" = ("abcd", false) ∧
    (truncateLine (some 4) "abcde").2 = true := by
  refine ⟨(c5_truncation 4 "abcd").1 (by decide),
    ((c5_truncation 4 "abcde").2 (by decide)).1⟩

theorem seq_noop (mode : OutputMode) (cols maxc : Option Nat) (off : Nat)
    (entries : List FileEntryM) (acc : SeqAcc)
    (h : acc.limit_reached = true) :
    runSequentialSearch mode cols maxc off entries acc = acc := by
  induction entries with
  | nil => rfl
  | cons e rest ih =>
    have hstep : seqStep mode cols maxc off acc e = acc := by
      simp [seqStep, h]
    calc runSequentialSearch mode cols maxc off (e :: rest) acc
        = runSequentialSearch mode cols maxc off rest (seqStep mode cols maxc off acc e) := rfl
      _ = runSequentialSearch mode cols maxc off rest acc := by rw [hstep]
      _ = acc := ih

theorem seq_append (mode : OutputMode) (cols maxc : Option Nat) (off : Nat)
    (l1 l2 : List FileEntryM) (acc : SeqAcc) :
    runSequentialSearch mode cols maxc off (l1 ++ l2) acc =
      runSequentialSearch mode cols maxc off l2
        (runSequentialSearch mode cols maxc off l1 acc) := by
  induction l1 generalizing acc with
  | nil => rfl
  | cons e rest ih => exact ih (seqStep mode cols maxc off acc e)

theorem seqBody_collected_le (mode : OutputMode) (cols : Option Nat)
    (maxc : Option Nat) (acc : SeqAcc) (e : FileEntryM) (mx off₀ : Nat)
    (hc : acc.collected ≤ mx) (hz : ¬ mx - acc.collected = 0) :
    (seqBody mode cols maxc acc e (some (mx - acc.collected))
      off₀).collected ≤ mx := by
  cases e with
  | mk rel outcome =>
    cases outcome with
    | openFail => simpa [seqBody] using hc
    | readFail => simpa [seqBody] using hc
    | ok events =>
      have hs := runSearch_collected_le events mode cols (mx - acc.collected) off₀
        (by omega)
      simp only [seqBody]
      split
      · simpa using hc
      · split <;> simp <;> omega

theorem seqStep_inv (mode : OutputMode) (cols maxc : Option Nat)
    (off : Nat) (acc : SeqAcc) (e : FileEntryM)
    (h : ∀ mx, maxc = some mx → acc.collected ≤ mx) :
    ∀ mx, maxc = some mx → (seqStep mode cols maxc off acc e).collected ≤ mx := by
  intro mx hmx
  subst hmx
  have hc := h mx rfl
  by_cases hl : acc.limit_reached
  · simpa [seqStep, hl] using hc
  · replace hl : acc.limit_reached = false := by simpa using hl
    by_cases hz : mx - acc.collected = 0
    · simpa [seqStep, hl, hz] using hc
    · have hbody := seqBody_collected_le mode cols (some mx) acc e mx
        (off - acc.total_matches) hc hz
      simpa [seqStep, hl, hz] using hbody

theorem toNat_max_sub (a b : Nat) : (max 0 ((a : Int) - (b : Int))).toNat = a - b := by
  omega

theorem seqStep_eq_spec (mode : OutputMode) (cols maxc : Option Nat)
    (off : Nat) (acc : SeqAcc) (e : FileEntryM)
    (h : ∀ mx, maxc = some mx → acc.collected ≤ mx) :
    seqStep mode cols maxc off acc e = seqStepSpec mode cols maxc off acc e := by
  by_cases hl : acc.limit_reached
  · simp [seqStep, seqStepSpec, hl]
  · replace hl : acc.limit_reached = false := by simpa using hl
    cases maxc with
    | none =>
      simp only [seqStep, seqStepSpec, hl, Option.map_none', Bool.false_eq_true,
        if_false]
      rw [toNat_max_sub off acc.total_matches]
      simp
    | some mx =>
      have hc := h mx rfl
      by_cases hz : mx - acc.collected = 0
      · have hzi : (mx : Int) - (acc.collected : Int) = 0 := by omega
        simp [seqStep, seqStepSpec, hl, hz, hzi]
      · have hzi : ¬ ((mx : Int) - (acc.collected : Int) = 0) := by omega
        have htn : ((mx : Int) - (acc.collected : Int)).toNat = mx - acc.collected := by
          omega
        simp only [seqStep, seqStepSpec, hl, Option.map_some', Bool.false_eq_true,
          if_false, Option.some.injEq, hz, hzi, if_neg, htn]
        rw [toNat_max_sub off acc.total_matches]
        simp [hz, hzi]

/-- Claim C1: the sequential walk of run_sequential_search behaves exactly
as specified.  (i) Provided the collected running total never exceeds a
configured maximum (true of every reachable state, from the all-zero
initial state on), the walk computed with the source's saturating Nat
arithmetic equals the specification-worded walk whose local offset is
max(0, global_offset - total_matches_seen) and whose local budget is
global_max - collected_so_far as integers, stopping with limit_reached
set when that budget is exactly zero.  (ii) As soon as limit_reached is
true the walk stops: appending further files changes nothing.  (iii) When
the remaining budget at a file is exactly zero the whole walk stops
immediately with limit_reached set. -/
theorem c1_sequential_walk :
    ∀ (mode : OutputMode) (cols maxc : Option Nat) (off : Nat),
    (∀ (entries : List FileEntryM) (acc : SeqAcc),
      (∀ mx, maxc = some mx → acc.collected ≤ mx) →
      runSequentialSearch mode cols maxc off entries acc =
        seqWalkSpec mode cols maxc off entries acc) ∧
    (∀ (pre post : List FileEntryM) (acc : SeqAcc),
      (runSequentialSearch mode cols maxc off pre acc).limit_reached = true →
      runSequentialSearch mode cols maxc off (pre ++ post) acc =
        runSequentialSearch mode cols maxc off pre acc) ∧
    (∀ (e : FileEntryM) (rest : List FileEntryM) (acc : SeqAcc) (mx : Nat),
      acc.limit_reached = false → maxc = some mx → mx ≤ acc.collected →
      runSequentialSearch mode cols maxc off (e :: rest) acc =
        { acc with limit_reached := true }) := by
  intro mode cols maxc off
  refine ⟨?_, ?_, ?_⟩
  · intro entries
    induction entries with
    | nil => intro acc _; rfl
    | cons e rest ih =>
      intro acc hinv
      calc runSequentialSearch mode cols maxc off (e :: rest) acc
          = runSequentialSearch mode cols maxc off rest
              (seqStep mode cols maxc off acc e) := rfl
        _ = seqWalkSpec mode cols maxc off rest
              (seqStep mode cols maxc off acc e) :=
            ih _ (seqStep_inv mode cols maxc off acc e hinv)
        _ = seqWalkSpec mode cols maxc off (e :: rest) acc := by
            rw [seqStep_eq_spec mode cols maxc off acc e hinv]; rfl
  · intro pre post acc h
    rw [seq_append, seq_noop mode cols maxc off post _ h]
  · intro e rest acc mx hl hmx hle
    subst hmx
    have hz : mx - acc.collected = 0 := by omega
    have hstep : seqStep mode cols (some mx) off acc e =
        { acc with limit_reached := true } := by
      simp [seqStep, hl, hz]
    calc runSequentialSearch mode cols (some mx) off (e :: rest) acc
        = runSequentialSearch mode cols (some mx) off rest
            (seqStep mode cols (some mx) off acc e) := rfl
      _ = runSequentialSearch mode cols (some mx) off rest
            { acc with limit_reached := true } := by rw [hstep]
      _ = { acc with limit_reached := true } :=
          seq_noop mode cols (some mx) off rest _ rfl

/-- Claim C1, witness: the three statements applied at concrete walks. -/
theorem c1_witness :
    (runSequentialSearch OutputMode.Content none (some 1) 0
        [⟨"a", FileOutcome.ok [SinkEvent.matched 1 "x"]⟩] initSeqAcc =
      seqWalkSpec OutputMode.Content none (some 1) 0
        [⟨"a", FileOutcome.ok [SinkEvent.matched 1 "x"]⟩] initSeqAcc) ∧
    (runSequentialSearch OutputMode.Content none (some 1) 0
        ([⟨"a", FileOutcome.ok [SinkEvent.matched 1 "x"]⟩] ++
          [⟨"b", FileOutcome.ok [SinkEvent.matched 1 "y"]⟩]) initSeqAcc =
      runSequentialSearch OutputMode.Content none (some 1) 0
        [⟨"a", FileOutcome.ok [SinkEvent.matched 1 "x"]⟩] initSeqAcc) ∧
    (runSequentialSearch OutputMode.Content none (some 1) 0
        [⟨"b", FileOutcome.ok [SinkEvent.matched 1 "y"]⟩]
        { initSeqAcc with collected := 1 } =
      { initSeqAcc with collected := 1, limit_reached := true }) := by
  refine ⟨?_, ?_, ?_⟩
  · exact (c1_sequential_walk OutputMode.Content none (some 1) 0).1 _ _
      (by intro mx hmx; injection hmx with h; simp [initSeqAcc, ← h])
  · exact (c1_sequential_walk OutputMode.Content none (some 1) 0).2.1 _ _ _
      (by decide)
  · exact (c1_sequential_walk OutputMode.Content none (some 1) 0).2.2 _ _ _ 1
      rfl rfl (by decide)

/-- Claim C3: for a directory search over a non-empty candidate list, the
parallel per-file strategy is used if and only if no maximum count and no
offset were requested (allow_parallel), and whenever the parallel
strategy runs the returned limit_reached field is None. -/
theorem c3_parallel_eligibility :
    ∀ (maxc : Option Nat) (off : Nat),
    (allowParallel maxc off = true ↔ maxc = none ∧ off = 0) ∧
    ∀ (entries : List FileEntryM) (mode : OutputMode) (cols : Option Nat),
      entries ≠ [] →
      (allowParallel maxc off = true →
        grepSyncDir entries mode cols maxc off = grepParallel entries mode cols ∧
        (grepSyncDir entries mode cols maxc off).limit_reached = none) ∧
      (allowParallel maxc off = false →
        grepSyncDir entries mode cols maxc off =
          grepSequential entries mode cols maxc off) ∧
      (grepParallel entries mode cols).limit_reached = none := by
  intro maxc off
  constructor
  · cases maxc <;> simp [allowParallel]
  · intro entries mode cols hne
    have hempty : entries.isEmpty = false := by
      cases entries with
      | nil => exact absurd rfl hne
      | cons a l => rfl
    refine ⟨fun hpar => ?_, fun hpar => ?_, rfl⟩
    · constructor
      · rw [grepSyncDir, hempty]
        simp [hpar]
      · rw [grepSyncDir, hempty]
        simp [hpar, grepParallel]
    · rw [grepSyncDir, hempty]
      simp [hpar]

/-- Claim C3, witness: applied at a one-file list with no limit and no
offset, and at the same list with a maximum set. -/
theorem c3_witness :
    (grepSyncDir [⟨"a", FileOutcome.ok []⟩] OutputMode.Content none none 0 =
      grepParallel [⟨"a", FileOutcome.ok []⟩] OutputMode.Content none) ∧
    (grepSyncDir [⟨"a", FileOutcome.ok []⟩] OutputMode.Content none none 0).limit_reached
        = none ∧
    (grepSyncDir [⟨"a", FileOutcome.ok []⟩] OutputMode.Content none (some 5) 0 =
      grepSequential [⟨"a", FileOutcome.ok []⟩] OutputMode.Content none (some 5) 0) := by
  refine ⟨?_, ?_, ?_⟩
  · exact (((c3_parallel_eligibility none 0).2 [⟨"a", FileOutcome.ok []⟩]
      OutputMode.Content none (by simp)).1 rfl).1
  · exact (((c3_parallel_eligibility none 0).2 [⟨"a", FileOutcome.ok []⟩]
      OutputMode.Content none (by simp)).1 rfl).2
  · exact (((c3_parallel_eligibility (some 5) 0).2 [⟨"a", FileOutcome.ok []⟩]
      OutputMode.Content none (by simp)).2.1 rfl)

/-- Claim C8 (amended): a file that cannot be opened is silently skipped
in both strategies: nothing is counted for it, the walk continues with
the remaining files, and the request is not aborted.  A file that opens
but fails during reading is likewise skipped without aborting and never
counted in files_with_matches, and the parallel strategy drops it
entirely; the sequential strategy, however, increments files_searched for
it (the counter is bumped before the read runs), contrary to the claim as
stated — see the counterexample. -/
theorem c8_per_file_errors :
    ∀ (mode : OutputMode) (cols maxc : Option Nat) (off : Nat) (rel : String)
      (rest : List FileEntryM) (acc : SeqAcc),
    (acc.limit_reached = false →
      (∀ mx, maxc = some mx → ¬ mx - acc.collected = 0) →
      runSequentialSearch mode cols maxc off
          (⟨rel, FileOutcome.openFail⟩ :: rest) acc =
        runSequentialSearch mode cols maxc off rest acc ∧
      runSequentialSearch mode cols maxc off
          (⟨rel, FileOutcome.readFail⟩ :: rest) acc =
        runSequentialSearch mode cols maxc off rest
          { acc with files_searched := acc.files_searched + 1 }) ∧
    (∀ (entries : List FileEntryM),
      runParallelSearch (⟨rel, FileOutcome.openFail⟩ :: entries) mode cols =
        runParallelSearch entries mode cols ∧
      runParallelSearch (⟨rel, FileOutcome.readFail⟩ :: entries) mode cols =
        runParallelSearch entries mode cols) := by
  intro mode cols maxc off rel rest acc
  constructor
  · intro hl hrem
    have hmap : ¬ (maxc.map (fun mx => mx - acc.collected) = some 0) := by
      cases maxc with
      | none => simp
      | some mx => simpa using hrem mx rfl
    constructor
    · have hstep : seqStep mode cols maxc off acc ⟨rel, FileOutcome.openFail⟩ = acc := by
        simp [seqStep, hl, hmap, seqBody]
      calc runSequentialSearch mode cols maxc off
            (⟨rel, FileOutcome.openFail⟩ :: rest) acc
          = runSequentialSearch mode cols maxc off rest
              (seqStep mode cols maxc off acc ⟨rel, FileOutcome.openFail⟩) := rfl
        _ = runSequentialSearch mode cols maxc off rest acc := by rw [hstep]
    · have hstep : seqStep mode cols maxc off acc ⟨rel, FileOutcome.readFail⟩ =
          { acc with files_searched := acc.files_searched + 1 } := by
        simp [seqStep, hl, hmap, seqBody]
      calc runSequentialSearch mode cols maxc off
            (⟨rel, FileOutcome.readFail⟩ :: rest) acc
          = runSequentialSearch mode cols maxc off rest
              (seqStep mode cols maxc off acc ⟨rel, FileOutcome.readFail⟩) := rfl
        _ = runSequentialSearch mode cols maxc off rest
              { acc with files_searched := acc.files_searched + 1 } := by rw [hstep]
  · intro entries
    constructor
    · simp [runParallelSearch, searchEntry]
    · simp [runParallelSearch, searchEntry]

/-- Claim C8, counterexample to the claim as stated: a walk over a single
file that opens but cannot be read reports files_searched = 1, although
the claim says the counter is not incremented for such a file. -/
theorem c8_counterexample :
    (runSequentialSearch OutputMode.Content none none 0
        [⟨"a", FileOutcome.readFail⟩] initSeqAcc).files_searched = 1 ∧
    ¬ ((runSequentialSearch OutputMode.Content none none 0
        [⟨"a", FileOutcome.readFail⟩] initSeqAcc).files_searched = 0) := by
  exact ⟨by decide, by decide⟩

/-- Claim C8, witness: the amended statements applied to concrete walks
over one failing file followed by one healthy file. -/
theorem c8_witness :
    (runSequentialSearch OutputMode.Content none none 0
        [⟨"a", FileOutcome.openFail⟩, ⟨"b", FileOutcome.ok []⟩] initSeqAcc =
      runSequentialSearch OutputMode.Content none none 0
        [⟨"b", FileOutcome.ok []⟩] initSeqAcc) ∧
    (runParallelSearch [⟨"a", FileOutcome.readFail⟩] OutputMode.Content none =
      runParallelSearch [] OutputMode.Content none) := by
  constructor
  · exact ((c8_per_file_errors OutputMode.Content none none 0 "a"
      [⟨"b", FileOutcome.ok []⟩] initSeqAcc).1 rfl (by intro mx h; cases h)).1
  · exact ((c8_per_file_errors OutputMode.Content none none 0 "a" [] initSeqAcc).2
      []).2

theorem seqStep_free (mode : OutputMode) (cols : Option Nat) (acc : SeqAcc)
    (e : FileEntryM) (hl : acc.limit_reached = false) :
    seqStep mode cols none 0 acc e =
      ⟨acc.«matches» ++ entryMatches mode cols e,
       acc.total_matches + entryTotal mode cols e,
       acc.collected + entryCollected mode cols e,
       acc.files_with_matches + entryFwm mode cols e,
       acc.files_searched + entrySearchedSeq e,
       false⟩ := by
  obtain ⟨am, at', ac, af, as', al⟩ := acc
  simp only at hl
  subst hl
  obtain ⟨rel, outcome⟩ := e
  cases outcome with
  | openFail =>
    simp [seqStep, seqBody, entryMatches, entryTotal, entryCollected, entryFwm,
      entrySearchedSeq]
  | readFail =>
    simp [seqStep, seqBody, entryMatches, entryTotal, entryCollected, entryFwm,
      entrySearchedSeq]
  | ok events =>
    by_cases hmc : (runSearch events mode cols none 0).match_count = 0
    · simp [seqStep, seqBody, entryMatches, entryTotal, entryCollected, entryFwm,
        entrySearchedSeq, resMatches, hmc]
    · simp [seqStep, seqBody, entryMatches, entryTotal, entryCollected, entryFwm,
        entrySearchedSeq, resMatches, hmc, runSearch_limit_none, optionIsSomeAnd]

theorem seq_free (mode : OutputMode) (cols : Option Nat) :
    ∀ (entries : List FileEntryM) (acc : SeqAcc),
    acc.limit_reached = false →
    runSequentialSearch mode cols none 0 entries acc =
      ⟨acc.«matches» ++ entries.flatMap (entryMatches mode cols),
       acc.total_matches + (entries.map (entryTotal mode cols)).sum,
       acc.collected + (entries.map (entryCollected mode cols)).sum,
       acc.files_with_matches + (entries.map (entryFwm mode cols)).sum,
       acc.files_searched + (entries.map entrySearchedSeq).sum,
       false⟩ := by
  intro entries
  induction entries with
  | nil =>
    intro acc hl
    obtain ⟨am, at', ac, af, as', al⟩ := acc
    simp only at hl
    subst hl
    simp [runSequentialSearch]
  | cons e rest ih =>
    intro acc hl
    calc runSequentialSearch mode cols none 0 (e :: rest) acc
        = runSequentialSearch mode cols none 0 rest (seqStep mode cols none 0 acc e) := rfl
      _ = _ := by
          rw [seqStep_free mode cols acc e hl, ih _ rfl]
          simp [List.append_assoc, Nat.add_assoc]

theorem par_foldl (mode : OutputMode) :
    ∀ (rs : List FileSearchResult) (acc : ParAcc),
    rs.foldl (parStep mode) acc =
      ⟨acc.«matches» ++ rs.flatMap (resMatches mode),
       acc.total_matches + (rs.map FileSearchResult.match_count).sum,
       acc.files_with_matches +
         (rs.map (fun r => if r.match_count = 0 then 0 else 1)).sum⟩ := by
  intro rs
  induction rs with
  | nil =>
    intro acc
    obtain ⟨am, at', af⟩ := acc
    simp
  | cons r rest ih =>
    intro acc
    have hstep : parStep mode acc r =
        ⟨acc.«matches» ++ resMatches mode r,
         acc.total_matches + r.match_count,
         acc.files_with_matches + (if r.match_count = 0 then 0 else 1)⟩ := by
      obtain ⟨am, at', af⟩ := acc
      by_cases hmc : r.match_count = 0
      · simp [parStep, resMatches, hmc]
      · simp [parStep, resMatches, hmc]
    calc (r :: rest).foldl (parStep mode) acc
        = rest.foldl (parStep mode) (parStep mode acc r) := rfl
      _ = _ := by
          rw [ih (parStep mode acc r), hstep]
          simp [List.append_assoc, Nat.add_assoc]

theorem bridge_matches (mode : OutputMode) (cols : Option Nat) :
    ∀ (entries : List FileEntryM),
    (entries.filterMap (searchEntry mode cols)).flatMap (resMatches mode) =
      entries.flatMap (entryMatches mode cols) := by
  intro entries
  induction entries with
  | nil => rfl
  | cons e rest ih =>
    obtain ⟨rel, outcome⟩ := e
    cases outcome with
    | openFail => simpa [searchEntry, entryMatches] using ih
    | readFail => simpa [searchEntry, entryMatches] using ih
    | ok events => simp [searchEntry, entryMatches, List.filterMap_cons, ih]

theorem bridge_total (mode : OutputMode) (cols : Option Nat) :
    ∀ (entries : List FileEntryM),
    ((entries.filterMap (searchEntry mode cols)).map FileSearchResult.match_count).sum =
      (entries.map (entryTotal mode cols)).sum := by
  intro entries
  induction entries with
  | nil => rfl
  | cons e rest ih =>
    obtain ⟨rel, outcome⟩ := e
    cases outcome with
    | openFail => simpa [searchEntry, entryTotal] using ih
    | readFail => simpa [searchEntry, entryTotal] using ih
    | ok events => simp [searchEntry, entryTotal, List.filterMap_cons, ih]

theorem bridge_fwm (mode : OutputMode) (cols : Option Nat) :
    ∀ (entries : List FileEntryM),
    ((entries.filterMap (searchEntry mode cols)).map
        (fun r => if r.match_count = 0 then 0 else 1)).sum =
      (entries.map (entryFwm mode cols)).sum := by
  intro entries
  induction entries with
  | nil => rfl
  | cons e rest ih =>
    obtain ⟨rel, outcome⟩ := e
    cases outcome with
    | openFail => simpa [searchEntry, entryFwm] using ih
    | readFail => simpa [searchEntry, entryFwm] using ih
    | ok events => simp [searchEntry, entryFwm, List.filterMap_cons, ih]

theorem bridge_searched (mode : OutputMode) (cols : Option Nat) :
    ∀ (entries : List FileEntryM),
    (entries.filterMap (searchEntry mode cols)).length =
      (entries.map entrySearchedPar).sum := by
  intro entries
  induction entries with
  | nil => rfl
  | cons e rest ih =>
    obtain ⟨rel, outcome⟩ := e
    cases outcome with
    | openFail => simpa [searchEntry, entrySearchedPar] using ih
    | readFail => simpa [searchEntry, entrySearchedPar] using ih
    | ok events =>
      simp [searchEntry, entrySearchedPar, List.filterMap_cons, ih, Nat.add_comm]

theorem searchEntry_rel (mode : OutputMode) (cols : Option Nat)
    (e : FileEntryM) (r : FileSearchResult)
    (h : searchEntry mode cols e = some r) :
    r.relative_path = e.relative_path := by
  obtain ⟨rel, outcome⟩ := e
  cases outcome with
  | openFail => simp [searchEntry] at h
  | readFail => simp [searchEntry] at h
  | ok events =>
    simp only [searchEntry, Option.some.injEq] at h
    rw [← h]

theorem pairwise_searchEntry (mode : OutputMode) (cols : Option Nat) :
    ∀ (entries : List FileEntryM),
    entries.Pairwise (fun a b => a.relative_path ≤ b.relative_path) →
    (entries.filterMap (searchEntry mode cols)).Pairwise
      (fun a b => a.relative_path ≤ b.relative_path) := by
  intro entries
  induction entries with
  | nil => intro _; simp
  | cons e rest ih =>
    intro h
    rw [List.pairwise_cons] at h
    obtain ⟨he, hrest⟩ := h
    cases hse : searchEntry mode cols e with
    | none => simpa [List.filterMap_cons, hse] using ih hrest
    | some r =>
      rw [List.filterMap_cons, hse]
      refine List.Pairwise.cons ?_ (ih hrest)
      intro b hb
      obtain ⟨a, ha, hfa⟩ := List.mem_filterMap.mp hb
      rw [searchEntry_rel mode cols e r hse, searchEntry_rel mode cols a b hfa]
      exact he a ha

theorem sortByPath_sorted :
    ∀ (rs : List FileSearchResult),
    rs.Pairwise (fun a b => a.relative_path ≤ b.relative_path) →
    sortByPath rs = rs := by
  intro rs
  induction rs with
  | nil => intro _; rfl
  | cons a l ih =>
    intro h
    rw [List.pairwise_cons] at h
    obtain ⟨ha, hl⟩ := h
    have : sortByPath (a :: l) = insertByPath a (sortByPath l) := rfl
    rw [this, ih hl]
    cases l with
    | nil => rfl
    | cons x xs =>
      have hx : a.relative_path ≤ x.relative_path := ha x (by simp)
      simp [insertByPath, hx]

theorem entryMatches_path (mode : OutputMode) (cols : Option Nat)
    (e : FileEntryM) (m : GrepMatchM) (h : m ∈ entryMatches mode cols e) :
    m.path = e.relative_path := by
  obtain ⟨rel, outcome⟩ := e
  cases outcome with
  | openFail => simp [entryMatches] at h
  | readFail => simp [entryMatches] at h
  | ok events =>
    simp only [entryMatches, resMatches] at h
    by_cases hmc : (runSearch events mode cols none 0).match_count = 0
    · simp [hmc] at h
    · rw [if_neg hmc] at h
      cases mode with
      | Content =>
        simp only [List.mem_map] at h
        obtain ⟨cm, _, hcm⟩ := h
        rw [← hcm]
        rfl
      | Count =>
        simp only [List.mem_singleton] at h
        rw [h]
        rfl

theorem pairwise_const_path (l : List GrepMatchM) (p : String)
    (h : ∀ m ∈ l, m.path = p) :
    l.Pairwise (fun a b => a.path ≤ b.path) := by
  induction l with
  | nil => simp
  | cons a rest ih =>
    refine List.Pairwise.cons ?_ (ih (fun m hm => h m (List.mem_cons_of_mem a hm)))
    intro b hb
    rw [h a (List.mem_cons_self a rest), h b (List.mem_cons_of_mem a hb)]

theorem flatMap_path_pairwise (mode : OutputMode) (cols : Option Nat) :
    ∀ (entries : List FileEntryM),
    entries.Pairwise (fun a b => a.relative_path ≤ b.relative_path) →
    (entries.flatMap (entryMatches mode cols)).Pairwise
      (fun a b => a.path ≤ b.path) := by
  intro entries
  induction entries with
  | nil => intro _; simp
  | cons e rest ih =>
    intro h
    rw [List.pairwise_cons] at h
    obtain ⟨he, hrest⟩ := h
    rw [List.flatMap_cons, List.pairwise_append]
    refine ⟨pairwise_const_path _ e.relative_path
      (fun m hm => entryMatches_path mode cols e m hm), ih hrest, ?_⟩
    intro a ha b hb
    obtain ⟨e', he', hb'⟩ := List.mem_flatMap.mp hb
    rw [entryMatches_path mode cols e a ha, entryMatches_path mode cols e' b hb']
    exact he e' he'

theorem searchedPar_eq_seq (entries : List FileEntryM)
    (h : ∀ e ∈ entries, e.outcome ≠ FileOutcome.readFail) :
    entries.map entrySearchedPar = entries.map entrySearchedSeq := by
  refine List.map_congr_left (fun e he => ?_)
  obtain ⟨rel, outcome⟩ := e
  cases outcome with
  | openFail => rfl
  | readFail => exact absurd rfl (h ⟨rel, FileOutcome.readFail⟩ he)
  | ok events => rfl

/-- Claim C7 (amended): over a path-sorted candidate list with no offset
and no maximum, the parallel and sequential strategies return the same
match list (path-sorted), the same total matches, the same
files_with_matches, and the same limit_reached field; files_searched also
agrees provided no file fails during reading — a file that opens but
fails mid-read is counted by the sequential strategy only, see the
counterexample. -/
theorem c7_parallel_sequential_agree :
    ∀ (mode : OutputMode) (cols : Option Nat) (entries : List FileEntryM),
    entries.Pairwise (fun a b => a.relative_path ≤ b.relative_path) →
    (grepParallel entries mode cols).«matches» =
      (grepSequential entries mode cols none 0).«matches» ∧
    (grepParallel entries mode cols).total_matches =
      (grepSequential entries mode cols none 0).total_matches ∧
    (grepParallel entries mode cols).files_with_matches =
      (grepSequential entries mode cols none 0).files_with_matches ∧
    (grepParallel entries mode cols).limit_reached =
      (grepSequential entries mode cols none 0).limit_reached ∧
    ((∀ e ∈ entries, e.outcome ≠ FileOutcome.readFail) →
      (grepParallel entries mode cols).files_searched =
        (grepSequential entries mode cols none 0).files_searched) ∧
    (grepSequential entries mode cols none 0).«matches».Pairwise
      (fun a b => a.path ≤ b.path) := by
  intro mode cols entries h
  have hid : runParallelSearch entries mode cols =
      entries.filterMap (searchEntry mode cols) := by
    rw [runParallelSearch, sortByPath_sorted _ (pairwise_searchEntry mode cols entries h)]
  have hseq := seq_free mode cols entries initSeqAcc rfl
  have hpar :
      grepParallel entries mode cols =
        { «matches» := (entries.filterMap (searchEntry mode cols)).flatMap (resMatches mode)
          total_matches := clampU32
            (((entries.filterMap (searchEntry mode cols)).map
              FileSearchResult.match_count).sum)
          files_with_matches :=
            ((entries.filterMap (searchEntry mode cols)).map
              (fun r => if r.match_count = 0 then 0 else 1)).sum
          files_searched := (entries.filterMap (searchEntry mode cols)).length
          limit_reached := none } := by
    rw [grepParallel, hid, par_foldl mode]
    simp
  rw [grepSequential, hseq, hpar]
  refine ⟨?_, ?_, ?_, ?_, ?_, ?_⟩
  · simp [initSeqAcc, bridge_matches mode cols entries]
  · simp [initSeqAcc, bridge_total mode cols entries]
  · simp [initSeqAcc, bridge_fwm mode cols entries]
  · simp [initSeqAcc]
  · intro hnr
    simp [initSeqAcc, bridge_searched mode cols entries,
      searchedPar_eq_seq entries hnr]
  · simpa [initSeqAcc] using flatMap_path_pairwise mode cols entries h

/-- Claim C7, counterexample to the claim as stated: over the same
one-file list whose file opens but fails during reading, the two
strategies disagree on files_searched (parallel 0, sequential 1). -/
theorem c7_counterexample :
    ¬ ((grepParallel [⟨"a", FileOutcome.readFail⟩] OutputMode.Content
        none).files_searched =
      (grepSequential [⟨"a", FileOutcome.readFail⟩] OutputMode.Content
        none none 0).files_searched) := by
  decide

/-- Claim C7, witness: the amended equivalence applied at a concrete
sorted two-file list. -/
theorem c7_witness :
    (grepParallel [⟨"a", FileOutcome.ok [SinkEvent.matched 1 "x"]⟩,
        ⟨"a", FileOutcome.ok []⟩] OutputMode.Content none).«matches» =
      (grepSequential [⟨"a", FileOutcome.ok [SinkEvent.matched 1 "x"]⟩,
        ⟨"a", FileOutcome.ok []⟩] OutputMode.Content none none 0).«matches» ∧
    (grepParallel [⟨"a", FileOutcome.ok [SinkEvent.matched 1 "x"]⟩,
        ⟨"a", FileOutcome.ok []⟩] OutputMode.Content none).files_searched =
      (grepSequential [⟨"a", FileOutcome.ok [SinkEvent.matched 1 "x"]⟩,
        ⟨"a", FileOutcome.ok []⟩] OutputMode.Content none none 0).files_searched := by
  have hpw : List.Pairwise
      (fun (a b : FileEntryM) => a.relative_path ≤ b.relative_path)
      [⟨"a", FileOutcome.ok [SinkEvent.matched 1 "x"]⟩, ⟨"a", FileOutcome.ok []⟩] := by
    refine List.pairwise_cons.mpr ⟨?_, List.pairwise_singleton _ _⟩
    intro b hb
    rw [List.mem_singleton] at hb
    subst hb
    exact le_refl _
  constructor
  · exact (c7_parallel_sequential_agree OutputMode.Content none
      [⟨"a", FileOutcome.ok [SinkEvent.matched 1 "x"]⟩, ⟨"a", FileOutcome.ok []⟩]
      hpw).1
  · exact (c7_parallel_sequential_agree OutputMode.Content none
      [⟨"a", FileOutcome.ok [SinkEvent.matched 1 "x"]⟩, ⟨"a", FileOutcome.ok []⟩]
      hpw).2.2.2.2.1 (by decide)

/-- Claim C9: when both a glob filter and a type filter are present, a
file appears in the candidate list only if the glob accepts its path
relative to the root AND the type filter accepts its base name or
extension (both-must-match semantics). -/
theorem c9_both_filters :
    ∀ (root : List String) (walk : List WalkEntry) (g : List String → Bool)
      (tf : TypeFilter) (f : DiscoveredFile),
    f ∈ collectFiles root walk (some g) (some tf) →
    g (stripRoot root f.path) = true ∧
    matchesTypeFilter f.path tf = true ∧
    f.relative_path = stripRoot root f.path := by
  intro root walk g tf f h
  simp only [collectFiles, List.mem_filterMap] at h
  obtain ⟨entry, _, heq⟩ := h
  by_cases h1 : entry.is_file
  · rw [if_neg (by simpa using h1)] at heq
    by_cases h2 : g (stripRoot root entry.path) = true
    · rw [if_neg (by simpa using h2)] at heq
      by_cases h3 : matchesTypeFilter entry.path tf = true
      · rw [if_neg (by simpa using h3), Option.some.injEq] at heq
        subst heq
        exact ⟨h2, h3, rfl⟩
      · rw [if_pos (by simpa using h3)] at heq
        exact absurd heq (by simp)
    · rw [if_pos (by simpa using h2)] at heq
      exact absurd heq (by simp)
  · rw [if_pos (by simpa using h1)] at heq
    exact absurd heq (by simp)

/-- Claim C9, witness: a concrete walk with a glob predicate and a type
filter, applied to a file that satisfies both. -/
theorem c9_witness :
    (fun rel => rel = ["a.py"] : List String → Bool) (stripRoot ["r"]
      (⟨["r", "a.py"], ["a.py"]⟩ : DiscoveredFile).path) = true ∧
    matchesTypeFilter (⟨["r", "a.py"], ["a.py"]⟩ : DiscoveredFile).path
      ⟨["py"], []⟩ = true := by
  have h := c9_both_filters ["r"] [⟨["r", "a.py"], true⟩]
    (fun rel => rel = ["a.py"]) ⟨["py"], []⟩ ⟨["r", "a.py"], ["a.py"]⟩
    (by decide)
  exact ⟨h.1, h.2.1⟩

/-- Claim C10: a glob or type option that is missing, empty or
whitespace-only resolves to no filter at all, so the candidate list is
the one computed with no filter (it excludes no files); and a type
shorthand is normalized by trimming whitespace, stripping leading dots
and lowercasing before the table lookup, so ".PY" and "  py  " denote the
same filter as "py". -/
theorem c10_empty_and_normalized_filters :
    (compileGlob none = none) ∧
    (resolveTypeFilter none = none) ∧
    (∀ s : String, strTrim s = "" →
      compileGlob (some s) = none ∧
      resolveTypeFilter (some s) = none ∧
      ∀ (root : List String) (walk : List WalkEntry)
        (ge : String → List String → Bool),
        collectFilesOpt root walk (some s) ge (some s) =
          collectFilesOpt root walk none ge none) ∧
    (resolveTypeFilter (some ".PY") = resolveTypeFilter (some "py")) ∧
    (resolveTypeFilter (some "  py  ") = resolveTypeFilter (some "py")) := by
  refine ⟨rfl, rfl, ?_, by decide, by decide⟩
  intro s hs
  have hg : compileGlob (some s) = none := by simp [compileGlob, hs]
  have ht : resolveTypeFilter (some s) = none := by simp [resolveTypeFilter, hs]
  refine ⟨hg, ht, fun root walk ge => ?_⟩
  simp only [collectFilesOpt, hg, ht]
  rfl

/-- Claim C10, witness: the empty-filter behavior applied at a
whitespace-only option string. -/
theorem c10_witness :
    compileGlob (some "  ") = none ∧ resolveTypeFilter (some "  ") = none := by
  have h := c10_empty_and_normalized_filters.2.2.1 "  " (by decide)
  exact ⟨h.1, h.2.1⟩

theorem appendAfterToLast_append (cl : ContextLine) (M bs : List CollectedMatch)
    (h : bs ≠ []) :
    appendAfterToLast cl (M ++ bs) = M ++ appendAfterToLast cl bs := by
  induction M with
  | nil => rfl
  | cons m M' ih =>
    cases hmb : M' ++ bs with
    | nil =>
      exact absurd (List.append_eq_nil.mp hmb).2 h
    | cons x xs =>
      calc appendAfterToLast cl ((m :: M') ++ bs)
          = appendAfterToLast cl (m :: (M' ++ bs)) := rfl
        _ = m :: appendAfterToLast cl (M' ++ bs) := by
            rw [hmb]; rfl
        _ = m :: (M' ++ appendAfterToLast cl bs) := by rw [ih]
        _ = (m :: M') ++ appendAfterToLast cl bs := rfl

theorem appendAfterToLast_ne_nil (cl : ContextLine) (bs : List CollectedMatch)
    (h : bs ≠ []) : appendAfterToLast cl bs ≠ [] := by
  intro hc
  apply h
  have hlen := appendAfterToLast_length cl bs
  rw [hc] at hlen
  exact List.length_eq_zero.mp hlen.symm

theorem c4_tail :
    ∀ (es : List SinkEvent) (F B : MatchCollector) (M : List CollectedMatch),
    F.max_count = none → B.max_count = none →
    F.limit_reached = false → B.limit_reached = false →
    F.offset = 0 → B.offset = B.skipped →
    F.collect_matches = true → B.collect_matches = true →
    F.max_columns = B.max_columns →
    F.context_before = B.context_before →
    F.«matches» = M ++ B.«matches» → B.«matches» ≠ [] →
    (runEvents F es).«matches» = M ++ (runEvents B es).«matches» := by
  intro es
  induction es with
  | nil =>
    intro F B M _ _ _ _ _ _ _ _ _ _ hm _
    simpa [runEvents] using hm
  | cons e es ih =>
    intro F B M hFmax hBmax hFlim hBlim hFoff hBoff hFcol hBcol hcols hcb hm hne
    cases e with
    | matched ln b =>
      have hFs := matchedStep_collect F ln b hFlim
        (by rw [hFoff]; exact Nat.not_lt_zero _) hFcol
      have hBs := matchedStep_collect B ln b hBlim
        (by rw [hBoff]; exact Nat.lt_irrefl _) hBcol
      rw [runEvents_cons_cont _ _ _ es
          (by simp only [MatchCollector.step]; exact hFs),
        runEvents_cons_cont _ _ _ es
          (by simp only [MatchCollector.step]; exact hBs)]
      apply ih <;>
        simp [hFmax, hBmax, hFoff, hBoff, hFcol, hBcol, hcols, hcb, hm,
          optionIsSomeAnd, List.append_assoc]
    | context kd ln b =>
      cases kd with
      | Before =>
        have hFs := contextStep_before F ln b hFcol
        have hBs := contextStep_before B ln b hBcol
        rw [runEvents_cons_cont _ _ _ es
            (by simp only [MatchCollector.step]; exact hFs),
          runEvents_cons_cont _ _ _ es
            (by simp only [MatchCollector.step]; exact hBs)]
        apply ih <;>
          simp [hFmax, hBmax, hFlim, hBlim, hFoff, hBoff, hFcol, hBcol, hcols,
            hcb, hm, hne]
      | After =>
        have hFs := contextStep_after F ln b hFcol
        have hBs := contextStep_after B ln b hBcol
        rw [runEvents_cons_cont _ _ _ es
            (by simp only [MatchCollector.step]; exact hFs),
          runEvents_cons_cont _ _ _ es
            (by simp only [MatchCollector.step]; exact hBs)]
        apply ih
        · simpa using hFmax
        · simpa using hBmax
        · simpa using hFlim
        · simpa using hBlim
        · simpa using hFoff
        · simpa using hBoff
        · simpa using hFcol
        · simpa using hBcol
        · simpa using hcols
        · simpa using hcb
        · simp only [hm, hcols, hcb]
          exact appendAfterToLast_append _ (M) B.«matches» hne
        · simpa using appendAfterToLast_ne_nil _ B.«matches» hne
      | Other =>
        have hFs := contextStep_other F ln b hFcol
        have hBs := contextStep_other B ln b hBcol
        rw [runEvents_cons_cont _ _ _ es
            (by simp only [MatchCollector.step]; exact hFs),
          runEvents_cons_cont _ _ _ es
            (by simp only [MatchCollector.step]; exact hBs)]
        exact ih F B M hFmax hBmax hFlim hBlim hFoff hBoff hFcol hBcol hcols
          hcb hm hne

theorem c4_phase2 :
    ∀ (es : List SinkEvent) (A B F : MatchCollector),
    A.limit_reached = true → A.collect_matches = true →
    A.max_columns = F.max_columns → A.«matches» = F.«matches» →
    F.max_count = none → B.max_count = none →
    F.limit_reached = false → B.limit_reached = false →
    F.offset = 0 → B.offset = B.skipped →
    F.collect_matches = true → B.collect_matches = true →
    F.max_columns = B.max_columns →
    F.context_before = B.context_before →
    B.«matches» = [] →
    (runEvents A es).«matches» ++ (runEvents B es).«matches» =
      (runEvents F es).«matches» := by
  intro es
  induction es with
  | nil =>
    intro A B F _ _ _ hAm _ _ _ _ _ _ _ _ _ _ hBm
    simp [runEvents, hAm, hBm]
  | cons e es ih =>
    intro A B F hAlim hAcol hAcols hAm hFmax hBmax hFlim hBlim hFoff hBoff
      hFcol hBcol hcols hcb hBm
    cases e with
    | matched ln b =>
      have hAs := matchedStep_limit A ln b hAlim
      have hBs := matchedStep_collect B ln b hBlim
        (by rw [hBoff]; exact Nat.lt_irrefl _) hBcol
      have hFs := matchedStep_collect F ln b hFlim
        (by rw [hFoff]; exact Nat.not_lt_zero _) hFcol
      rw [runEvents_cons_stop _ _ _ es
          (by simp only [MatchCollector.step]; exact hAs),
        runEvents_cons_cont _ _ _ es
          (by simp only [MatchCollector.step]; exact hBs),
        runEvents_cons_cont _ _ _ es
          (by simp only [MatchCollector.step]; exact hFs)]
      have hgoal :
          ({ A with match_count := A.match_count + 1 }).«matches» = F.«matches» := by
        simpa using hAm
      rw [hgoal]
      refine (c4_tail es _ _ F.«matches» ?_ ?_ ?_ ?_ ?_ ?_ ?_ ?_ ?_ ?_ ?_ ?_).symm <;>
        simp [hFmax, hBmax, hFoff, hBoff, hFcol, hBcol, hcols, hcb, hBm,
          optionIsSomeAnd]
    | context kd ln b =>
      cases kd with
      | Before =>
        have hAs := contextStep_before A ln b hAcol
        have hBs := contextStep_before B ln b hBcol
        have hFs := contextStep_before F ln b hFcol
        rw [runEvents_cons_cont _ _ _ es
            (by simp only [MatchCollector.step]; exact hAs),
          runEvents_cons_cont _ _ _ es
            (by simp only [MatchCollector.step]; exact hBs),
          runEvents_cons_cont _ _ _ es
            (by simp only [MatchCollector.step]; exact hFs)]
        apply ih <;>
          simp [hAlim, hAcol, hAcols, hAm, hFmax, hBmax, hFlim, hBlim, hFoff,
            hBoff, hFcol, hBcol, hcols, hcb, hBm]
      | After =>
        have hAs := contextStep_after A ln b hAcol
        have hBs := contextStep_after B ln b hBcol
        have hFs := contextStep_after F ln b hFcol
        rw [runEvents_cons_cont _ _ _ es
            (by simp only [MatchCollector.step]; exact hAs),
          runEvents_cons_cont _ _ _ es
            (by simp only [MatchCollector.step]; exact hBs),
          runEvents_cons_cont _ _ _ es
            (by simp only [MatchCollector.step]; exact hFs)]
        apply ih <;>
          simp [hAlim, hAcol, hAcols, hAm, hFmax, hBmax, hFlim, hBlim, hFoff,
            hBoff, hFcol, hBcol, hcols, hcb, hBm, appendAfterToLast]
      | Other =>
        have hAs := contextStep_other A ln b hAcol
        have hBs := contextStep_other B ln b hBcol
        have hFs := contextStep_other F ln b hFcol
        rw [runEvents_cons_cont _ _ _ es
            (by simp only [MatchCollector.step]; exact hAs),
          runEvents_cons_cont _ _ _ es
            (by simp only [MatchCollector.step]; exact hBs),
          runEvents_cons_cont _ _ _ es
            (by simp only [MatchCollector.step]; exact hFs)]
        exact ih A B F hAlim hAcol hAcols hAm hFmax hBmax hFlim hBlim hFoff
          hBoff hFcol hBcol hcols hcb hBm

theorem c4_phase1 :
    ∀ (es : List SinkEvent) (A B F : MatchCollector) (k : Nat),
    A.max_count = some k → A.limit_reached = false → A.offset = 0 →
    A.collect_matches = true →
    A.«matches» = F.«matches» → A.context_before = F.context_before →
    A.max_columns = F.max_columns →
    A.collected_count < k →
    B.max_count = none → B.limit_reached = false →
    B.offset = k → B.skipped = A.collected_count →
    B.collect_matches = true →
    F.max_count = none → F.limit_reached = false → F.offset = 0 →
    F.collect_matches = true →
    F.max_columns = B.max_columns →
    F.context_before = B.context_before →
    B.«matches» = [] →
    (runEvents A es).«matches» ++ (runEvents B es).«matches» =
      (runEvents F es).«matches» := by
  intro es
  induction es with
  | nil =>
    intro A B F k _ _ _ _ hAm _ _ _ _ _ _ _ _ _ _ _ _ _ _ hBm
    simp [runEvents, hAm, hBm]
  | cons e es ih =>
    intro A B F k hAmax hAlim hAoff hAcol hAm hAcb hAcols hAcc hBmax hBlim
      hBoff hBskip hBcol hFmax hFlim hFoff hFcol hcols hcb hBm
    cases e with
    | matched ln b =>
      have hAs := matchedStep_collect A ln b hAlim
        (by rw [hAoff]; exact Nat.not_lt_zero _) hAcol
      have hBs := matchedStep_skip B ln b hBlim
        (by rw [hBskip, hBoff]; exact hAcc)
      have hFs := matchedStep_collect F ln b hFlim
        (by rw [hFoff]; exact Nat.not_lt_zero _) hFcol
      rw [runEvents_cons_cont _ _ _ es
          (by simp only [MatchCollector.step]; exact hAs),
        runEvents_cons_cont _ _ _ es
          (by simp only [MatchCollector.step]; exact hBs),
        runEvents_cons_cont _ _ _ es
          (by simp only [MatchCollector.step]; exact hFs)]
      by_cases hk : k ≤ A.collected_count + 1
      · apply c4_phase2 <;>
          (simp [hAmax, hAlim, hAoff, hAcol, hAm, hAcb, hAcols, hBmax, hBlim,
            hBoff, hBskip, hBcol, hFmax, hFlim, hFoff, hFcol, hcols, hcb,
            hBm, optionIsSomeAnd, hk]; try omega)
      · apply ih _ _ _ k <;>
          (simp [hAmax, hAlim, hAoff, hAcol, hAm, hAcb, hAcols, hBmax, hBlim,
            hBoff, hBskip, hBcol, hFmax, hFlim, hFoff, hFcol, hcols, hcb,
            hBm, optionIsSomeAnd, hk]; try omega)
    | context kd ln b =>
      cases kd with
      | Before =>
        have hAs := contextStep_before A ln b hAcol
        have hBs := contextStep_before B ln b hBcol
        have hFs := contextStep_before F ln b hFcol
        rw [runEvents_cons_cont _ _ _ es
            (by simp only [MatchCollector.step]; exact hAs),
          runEvents_cons_cont _ _ _ es
            (by simp only [MatchCollector.step]; exact hBs),
          runEvents_cons_cont _ _ _ es
            (by simp only [MatchCollector.step]; exact hFs)]
        apply ih _ _ _ k <;>
          simp [hAmax, hAlim, hAoff, hAcol, hAm, hAcb, hAcols, hAcc, hBmax,
            hBlim, hBoff, hBskip, hBcol, hFmax, hFlim, hFoff, hFcol, hcols,
            hcb, hBm]
      | After =>
        have hAs := contextStep_after A ln b hAcol
        have hBs := contextStep_after B ln b hBcol
        have hFs := contextStep_after F ln b hFcol
        rw [runEvents_cons_cont _ _ _ es
            (by simp only [MatchCollector.step]; exact hAs),
          runEvents_cons_cont _ _ _ es
            (by simp only [MatchCollector.step]; exact hBs),
          runEvents_cons_cont _ _ _ es
            (by simp only [MatchCollector.step]; exact hFs)]
        apply ih _ _ _ k <;>
          simp [hAmax, hAlim, hAoff, hAcol, hAm, hAcb, hAcols, hAcc, hBmax,
            hBlim, hBoff, hBskip, hBcol, hFmax, hFlim, hFoff, hFcol, hcols,
            hcb, hBm, appendAfterToLast]
      | Other =>
        have hAs := contextStep_other A ln b hAcol
        have hBs := contextStep_other B ln b hBcol
        have hFs := contextStep_other F ln b hFcol
        rw [runEvents_cons_cont _ _ _ es
            (by simp only [MatchCollector.step]; exact hAs),
          runEvents_cons_cont _ _ _ es
            (by simp only [MatchCollector.step]; exact hBs),
          runEvents_cons_cont _ _ _ es
            (by simp only [MatchCollector.step]; exact hFs)]
        exact ih A B F k hAmax hAlim hAoff hAcol hAm hAcb hAcols hAcc hBmax
          hBlim hBoff hBskip hBcol hFmax hFlim hFoff hFcol hcols hcb hBm

/-- Claim C4 (amended): for every event stream, every column budget, and
every k ≥ 1, the ordered match list of the search with offset 0 and
maximum k, concatenated with the ordered match list of the search with
offset k and no maximum, equals the ordered match list of the single
search with offset 0 and no maximum — no overlap and no gap, context
windows included.  (At k = 0 the claim as stated fails, because a
configured maximum of 0 still collects one match; see the
counterexample.) -/
theorem c4_offset_pagination :
    ∀ (events : List SinkEvent) (cols : Option Nat) (k : Nat), 1 ≤ k →
    (runSearch events OutputMode.Content cols (some k) 0).«matches» ++
      (runSearch events OutputMode.Content cols none k).«matches» =
      (runSearch events OutputMode.Content cols none 0).«matches» := by
  intro events cols k hk
  simp only [runSearch]
  exact c4_phase1 events
    (MatchCollector.new (some k) 0 cols (OutputMode.Content == OutputMode.Content))
    (MatchCollector.new none k cols (OutputMode.Content == OutputMode.Content))
    (MatchCollector.new none 0 cols (OutputMode.Content == OutputMode.Content))
    k rfl rfl rfl rfl rfl rfl rfl hk rfl rfl rfl rfl
    rfl rfl rfl rfl rfl rfl rfl rfl

/-- Claim C4, counterexample to the claim as stated at k = 0: the first
search (maximum 0) still returns one match, so the concatenation
duplicates it. -/
theorem c4_counterexample :
    ¬ ((runSearch [SinkEvent.matched 1 "x"] OutputMode.Content none
          (some 0) 0).«matches» ++
        (runSearch [SinkEvent.matched 1 "x"] OutputMode.Content none
          none 0).«matches» =
      (runSearch [SinkEvent.matched 1 "x"] OutputMode.Content none
        none 0).«matches») := by
  decide

/-- Claim C4, witness: the amended theorem applied at a concrete stream
with k = 1. -/
theorem c4_witness :
    (runSearch [SinkEvent.matched 1 "x", SinkEvent.matched 2 "y"]
        OutputMode.Content none (some 1) 0).«matches» ++
      (runSearch [SinkEvent.matched 1 "x", SinkEvent.matched 2 "y"]
        OutputMode.Content none none 1).«matches» =
      (runSearch [SinkEvent.matched 1 "x", SinkEvent.matched 2 "y"]
        OutputMode.Content none none 0).«matches» :=
  c4_offset_pagination [SinkEvent.matched 1 "x", SinkEvent.matched 2 "y"]
    none 1 (by decide)

end Grep
